import Mathlib

/-!
Shallow embedding of `tools/dependency_summary.py`, the third-party
dependency / license summary tool.

Modelling conventions, used throughout:

* Python strings are Lean `String`s; character-level processing happens on
  `String.data` (`List Char`).  Python's ASCII-range case folding and
  whitespace classes are modelled on the characters the tool actually
  meets (`' '`, tab, CR, LF, and for Python's `\s` also `\x0b`/`\x0c`).
* External collaborators (the `cargo metadata` output, `cargo build
  --build-plan` output, the filesystem, HTTP fetches) are explicit inputs:
  a `Metadata` value, a `BuildPlans` value and a `FileSystem` value.
* Python exceptions become `Except Err`; each distinct `raise` site of the
  script gets an `Err` value carrying the data the site puts in its message.
* Python `set`s that the script only tests membership of are insertion-ordered
  duplicate-free lists (`insertSet`).
* Python's stable `sorted` is `List.insertionSort` with a reflexive total
  `le` relation, which is stable in the same way.
-/

deriving instance DecidableEq for Except

namespace DepSummary

/-- Python's `\s` (ASCII range) and the whitespace stripped by `str.strip()` /
`str.split()` on the tool's inputs: space, tab, CR, LF, vertical tab, form feed. -/
def isSpace (c : Char) : Bool :=
  c = ' ' || c = '\t' || c = '\r' || c = '\n' || c = '\x0b' || c = '\x0c'

/-- ASCII lower-casing of one character, as `str.lower()` acts on the
ASCII-only strings this tool handles. -/
def toLowerChar (c : Char) : Char :=
  if 'A' ≤ c ∧ c ≤ 'Z' then Char.ofNat (c.toNat + 32) else c

/-- `str.lower()` on an ASCII string. -/
def lowerStr (s : String) : String :=
  ⟨s.data.map toLowerChar⟩

/-- Drop leading whitespace characters. -/
def skipWs (l : List Char) : List Char :=
  l.dropWhile isSpace

/-- Python `str.strip()`: drop whitespace from both ends. -/
def stripChars (l : List Char) : List Char :=
  skipWs ((skipWs l.reverse).reverse)

/-- Python `str.strip()` on a `String`. -/
def stripStr (s : String) : String :=
  ⟨stripChars s.data⟩

/-- Python's substring test `needle in haystack`, on character lists. -/
def containsSub (needle : List Char) : List Char → Bool
  | [] => needle.isEmpty
  | c :: t => needle.isPrefixOf (c :: t) || containsSub needle t

/-- Python's substring test `needle in haystack` on strings. -/
def strContains (haystack needle : String) : Bool :=
  containsSub needle.data haystack.data

/-- Python `str.startswith`. -/
def strStartsWith (s pre : String) : Bool :=
  pre.data.isPrefixOf s.data

/-- Python `str.endswith`. -/
def strEndsWith (s suf : String) : Bool :=
  suf.data.reverse.isPrefixOf s.data.reverse

/-- Strict lexicographic order on lists, given a strict order on elements:
Python's `<` on lists/strings (shorter prefix sorts first). -/
def lexLt (lt : α → α → Bool) [DecidableEq α] : List α → List α → Bool
  | _, [] => false
  | [], _ :: _ => true
  | a :: as, b :: bs => if lt a b then true else if a = b then lexLt lt as bs else false

/-- Python's `<` on characters: by code point. -/
def charLt (a b : Char) : Bool :=
  decide (a.toNat < b.toNat)

/-- Python's `<` on strings: lexicographic by code point. -/
def strLt (a b : String) : Bool :=
  lexLt charLt a.data b.data

/-- The (non-strict) total order `a ≤ b ↔ ¬ b < a` on strings; Python's
stable `sorted` of strings is sorting by this relation. -/
def strLe (a b : String) : Bool :=
  !(strLt b a)

/-- Python's `<` on `list[str]` values. -/
def strListLt (a b : List String) : Bool :=
  lexLt strLt a b

/-- Python's `<` on `(int, list[str])` sort keys (tuple comparison). -/
def sortKeyLt (a b : Nat × List String) : Bool :=
  if a.1 < b.1 then true else if a.1 = b.1 then strListLt a.2 b.2 else false

/-- Non-strict comparison of `(int, list[str])` sort keys. -/
def sortKeyLe (a b : Nat × List String) : Bool :=
  !(sortKeyLt b a)

/-- `os.path.dirname`: everything before the last `/` (empty when there is
no slash; the tool only applies it to manifest paths that have one). -/
def dirname (s : String) : String :=
  ⟨(s.data.reverse.dropWhile (· ≠ '/')).drop 1 |>.reverse⟩

/-- `os.path.join` for the relative second components the tool uses. -/
def joinPath (d f : String) : String :=
  d ++ "/" ++ f

/-- Python's `sep.join(strings)`. -/
def joinStrings (sep : String) : List String → String
  | [] => ""
  | [s] => s
  | s :: rest => s ++ sep ++ joinStrings sep rest

/-- Python's `str(list_of_strings)`: `['a', 'b']`. -/
def formatStrList (l : List String) : String :=
  "[" ++ joinStrings ", " (l.map (fun s => "'" ++ s ++ "'")) ++ "]"

/-- Python's `str.format` of an optional value: `None` or the string itself. -/
def formatOpt : Option String → String
  | none => "None"
  | some s => s


/-- Python `set.add` on an insertion-ordered duplicate-free list. -/
def insertSet (x : α) (l : List α) [DecidableEq α] : List α :=
  if x ∈ l then l else l ++ [x]

/-- Python `set |= other` on insertion-ordered duplicate-free lists. -/
def unionSet (l extra : List α) [DecidableEq α] : List α :=
  extra.foldl (fun acc x => insertSet x acc) l

/-! ## Static tables of the script -/

/-- The targets used by rust-android-gradle, excluding the ones for unit testing. -/
def ALL_ANDROID_TARGETS : List String :=
  ["armv7-linux-androideabi", "aarch64-linux-android", "i686-linux-android",
   "x86_64-linux-android"]

/-- The targets used when compiling for iOS. -/
def ALL_IOS_TARGETS : List String :=
  ["x86_64-apple-ios", "aarch64-apple-ios"]

/-- All the targets that we build for. -/
def ALL_TARGETS : List String :=
  ALL_ANDROID_TARGETS ++ ALL_IOS_TARGETS ++
  ["x86_64-unknown-linux-gnu", "x86_64-apple-darwin", "x86_64-pc-windows-msvc",
   "x86_64-pc-windows-gnu"]

/-- The licenses under which we can compatibly use dependencies, in the order
in which we prefer them (the script's spelling of the name is kept). -/
def LICENES_IN_PREFERENCE_ORDER : List String :=
  ["MPL-2.0", "Apache-2.0", "MIT", "CC0-1.0", "ISC", "BSD-2-Clause", "BSD-3-Clause"]

/-- Packages that get pulled into the dependency tree but are never built. -/
def EXCLUDED_PACKAGES : List String :=
  ["cloudabi", "fuchsia-cprng", "fuchsia-zircon", "fuchsia-zircon-sys"]

/-! ## Errors

One constructor per kind of `raise` site in the script, carrying the data
that site interpolates into its message. -/

inductive Err where
  /-- `RuntimeError` raises (license selection, license-file search, argument
  checking), carrying the formatted message. -/
  | rte (msg : String)
  /-- `assert cond, msg` failures. -/
  | assertionFailed (msg : String)
  /-- Python `KeyError` from a dict lookup. -/
  | keyError (key : String)
  /-- Python `TypeError` (e.g. `re.split` applied to `None`). -/
  | typeError (msg : String)
  /-- `requests.Response.raise_for_status` on a non-2xx response. -/
  | httpError (url : String)
  /-- `open()` on a path that cannot be read. -/
  | ioError (path : String)
  /-- The `RuntimeError` raised by the stale-fixup check in
  `get_dependency_summary`, carrying the list of unnecessary fixup names. -/
  | unnecessaryFixups (names : List String)
deriving DecidableEq

/-- Whether an error is the stale-fixup (`unnecessary fixups`) error. -/
def Err.isUnnecessaryFixups : Err → Bool
  | .unnecessaryFixups _ => true
  | _ => false

/-! ## Package records -/

/-- One entry of a cargo package's `"targets"` list; the script only reads
its `"kind"` field. -/
structure BuildTarget where
  kind : List String
deriving DecidableEq

/-- A package record: a cargo-metadata `"packages"` entry, or a synthetic
entry from `EXTRA_PACKAGE_METADATA`.  Optional fields model JSON `null`;
`source = none` models the *absence* of the `"source"` key (the convention
for synthetic externally-managed packages), `source = some none` a `null`
source, `source = some (some s)` a registry source string.  Synthetic
entries have no `"id"`/`"manifest_path"` keys in the script; here they carry
their table key as `id` and `""` as `manifest_path`, neither of which the
script ever reads for them. -/
structure PkgRecord where
  id : String
  name : String
  license : Option String
  license_file : Option String
  repository : Option String
  manifest_path : String
  source : Option (Option String)
  targets : List BuildTarget
  /-- Pre-embedded license text (`"license_text"` key), when present. -/
  license_text : Option String
deriving DecidableEq

/-- The package-record fields the fixup table touches. -/
inductive Field where
  | license
  | license_file
  | repository
deriving DecidableEq

/-- The field's Python dict key, for error messages. -/
def Field.pyName : Field → String
  | .license => "license"
  | .license_file => "license_file"
  | .repository => "repository"

/-- `info.get(key, None)`. -/
def PkgRecord.getField (r : PkgRecord) : Field → Option String
  | .license => r.license
  | .license_file => r.license_file
  | .repository => r.repository

/-- `info[key] = value`. -/
def PkgRecord.setField (r : PkgRecord) : Field → String → PkgRecord
  | .license, v => { r with license := some v }
  | .license_file, v => { r with license_file := some v }
  | .repository, v => { r with repository := some v }

/-- One field's fixup: the expected current value (`"check"`) and, when the
`"fixup"` key is present, the replacement value. -/
structure FixupEntry where
  check : Option String
  fixup : Option String
deriving DecidableEq

/-- Known metadata for special extra packages that are not managed by cargo. -/
def EXTRA_PACKAGE_METADATA : List (String × PkgRecord) :=
  [("ext-jna",
    { id := "ext-jna", name := "jna",
      repository := some "https://github.com/java-native-access/jna",
      license := some "Apache-2.0",
      license_file := some "https://raw.githubusercontent.com/java-native-access/jna/master/AL2.0",
      manifest_path := "", source := none, targets := [], license_text := none }),
   ("ext-protobuf",
    { id := "ext-protobuf", name := "protobuf",
      repository := some "https://github.com/protocolbuffers/protobuf",
      license := some "BSD-3-Clause",
      license_file := some "https://raw.githubusercontent.com/protocolbuffers/protobuf/master/LICENSE",
      manifest_path := "", source := none, targets := [], license_text := none }),
   ("ext-swift-protobuf",
    { id := "ext-swift-protobuf", name := "swift-protobuf",
      repository := some "https://github.com/apple/swift-protobuf",
      license := some "Apache-2.0",
      license_file := some "https://raw.githubusercontent.com/apple/swift-protobuf/master/LICENSE.txt",
      manifest_path := "", source := none, targets := [], license_text := none }),
   ("ext-openssl",
    { id := "ext-openssl", name := "openssl",
      repository := some "https://www.openssl.org/source/",
      license := some "OpenSSL",
      license_file := some "https://www.openssl.org/source/license-openssl-ssleay.txt",
      manifest_path := "", source := none, targets := [], license_text := none }),
   ("ext-sqlcipher",
    { id := "ext-sqlcipher", name := "sqlcipher",
      repository := some "https://github.com/sqlcipher/sqlcipher",
      license := some "BSD-3-Clause",
      license_file := some "https://raw.githubusercontent.com/sqlcipher/sqlcipher/master/LICENSE",
      manifest_path := "", source := none, targets := [], license_text := none })]

/-- Rust packages that pull in the above extra dependencies. -/
def PACKAGES_WITH_EXTRA_DEPENDENCIES : List (String × List String) :=
  [("openssl-sys", ["ext-openssl"]),
   ("ring", ["ext-openssl"]),
   ("logins", ["ext-sqlcipher"])]

/-- Hand-audited tweaks to package metadata (the full `PACKAGE_METADATA_FIXUPS`
table), keyed by package name; each entry lists `(field, fixup)` pairs in the
source's insertion order. -/
def PACKAGE_METADATA_FIXUPS : List (String × List (Field × FixupEntry)) :=
  [("ring",
    [(.license, { check := none, fixup := some "ISC" })]),
   ("adler32",
    [(.license, { check := some "BSD-3-Clause AND Zlib", fixup := some "BSD-3-Clause" }),
     (.license_file, { check := none, fixup := some "LICENSE" })]),
   ("publicsuffix",
    [(.license, { check := some "MIT/Apache-2.0", fixup := none }),
     (.license_file, { check := none, fixup := some "LICENSE-APACHE" })]),
   ("siphasher",
    [(.license, { check := some "MIT/Apache-2.0", fixup := none }),
     (.license_file, { check := none, fixup := some "COPYING" })]),
   ("failure_derive",
    [(.repository, { check := some "https://github.com/withoutboats/failure_derive", fixup := none }),
     (.license_file, { check := none, fixup := some "https://raw.githubusercontent.com/withoutboats/failure_derive/master/LICENSE-APACHE" })]),
   ("hawk",
    [(.repository, { check := some "https://github.com/taskcluster/rust-hawk", fixup := none }),
     (.license_file, { check := none, fixup := some "https://raw.githubusercontent.com/taskcluster/rust-hawk/master/LICENSE" })]),
   ("kernel32-sys",
    [(.repository, { check := some "https://github.com/retep998/winapi-rs", fixup := none }),
     (.license_file, { check := none, fixup := some "https://raw.githubusercontent.com/retep998/winapi-rs/master/LICENSE-APACHE" })]),
   ("libsqlite3-sys",
    [(.repository, { check := some "https://github.com/jgallagher/rusqlite", fixup := none }),
     (.license_file, { check := none, fixup := some "https://raw.githubusercontent.com/jgallagher/rusqlite/master/LICENSE" })]),
   ("phf",
    [(.repository, { check := some "https://github.com/sfackler/rust-phf", fixup := none }),
     (.license_file, { check := none, fixup := some "https://raw.githubusercontent.com/sfackler/rust-phf/master/LICENSE" })]),
   ("phf_codegen",
    [(.repository, { check := some "https://github.com/sfackler/rust-phf", fixup := none }),
     (.license_file, { check := none, fixup := some "https://raw.githubusercontent.com/sfackler/rust-phf/master/LICENSE" })]),
   ("phf_generator",
    [(.repository, { check := some "https://github.com/sfackler/rust-phf", fixup := none }),
     (.license_file, { check := none, fixup := some "https://raw.githubusercontent.com/sfackler/rust-phf/master/LICENSE" })]),
   ("phf_shared",
    [(.repository, { check := some "https://github.com/sfackler/rust-phf", fixup := none }),
     (.license_file, { check := none, fixup := some "https://raw.githubusercontent.com/sfackler/rust-phf/master/LICENSE" })]),
   ("prost-build",
    [(.repository, { check := some "https://github.com/danburkert/prost", fixup := none }),
     (.license_file, { check := none, fixup := some "https://raw.githubusercontent.com/danburkert/prost/master/LICENSE" })]),
   ("prost-derive",
    [(.repository, { check := some "https://github.com/danburkert/prost", fixup := none }),
     (.license_file, { check := none, fixup := some "https://raw.githubusercontent.com/danburkert/prost/master/LICENSE" })]),
   ("prost-types",
    [(.repository, { check := some "https://github.com/danburkert/prost", fixup := none }),
     (.license_file, { check := none, fixup := some "https://raw.githubusercontent.com/danburkert/prost/master/LICENSE" })]),
   ("security-framework",
    [(.repository, { check := some "https://github.com/kornelski/rust-security-framework", fixup := none }),
     (.license_file, { check := none, fixup := some "https://raw.githubusercontent.com/kornelski/rust-security-framework/master/LICENSE-APACHE" })]),
   ("security-framework-sys",
    [(.repository, { check := some "https://github.com/kornelski/rust-security-framework", fixup := none }),
     (.license_file, { check := none, fixup := some "https://raw.githubusercontent.com/kornelski/rust-security-framework/master/LICENSE-APACHE" })]),
   ("url_serde",
    [(.repository, { check := some "https://github.com/servo/rust-url", fixup := none }),
     (.license_file, { check := none, fixup := some "https://raw.githubusercontent.com/servo/rust-url/master/LICENSE-APACHE" })]),
   ("winapi-build",
    [(.repository, { check := some "https://github.com/retep998/winapi-rs", fixup := none }),
     (.license_file, { check := none, fixup := some "https://raw.githubusercontent.com/retep998/winapi-rs/master/LICENSE-APACHE" })]),
   ("winapi-x86_64-pc-windows-gnu",
    [(.repository, { check := some "https://github.com/retep998/winapi-rs", fixup := none }),
     (.license_file, { check := none, fixup := some "https://raw.githubusercontent.com/retep998/winapi-rs/master/LICENSE-APACHE" })]),
   ("ws2_32-sys",
    [(.repository, { check := some "https://github.com/retep998/winapi-rs", fixup := none }),
     (.license_file, { check := none, fixup := some "https://raw.githubusercontent.com/retep998/winapi-rs/master/LICENSE-APACHE" })])]

/-- `COMMON_LICENSE_FILE_NAME_ROOTS`: common license file name roots by
license type (the `""` entry is the generic one). -/
def COMMON_LICENSE_FILE_NAME_ROOTS : List (String × List String) :=
  [("", ["license", "licence"]),
   ("Apache-2.0", ["license-apache", "licence-apache"]),
   ("MIT", ["license-mit", "licence-mit"])]

def COMMON_LICENSE_FILE_NAME_SUFFIXES : List String :=
  ["", ".md", ".txt"]

/-- The set `COMMON_LICENSE_FILE_NAMES[license]` the module-level loop builds:
every root for the license and every generic root, with every suffix. -/
def commonNamesFor (roots : List String) : List String :=
  COMMON_LICENSE_FILE_NAME_SUFFIXES.foldl (fun acc suffix =>
    let acc1 := roots.foldl (fun a root => insertSet (root ++ suffix) a) acc
    (["license", "licence"] : List String).foldl
      (fun a root => insertSet (root ++ suffix) a) acc1) []

/-- `COMMON_LICENSE_FILE_NAMES` as a partial map: defined exactly on the keys
of `COMMON_LICENSE_FILE_NAME_ROOTS`. -/
def COMMON_LICENSE_FILE_NAMES (license : String) : Option (List String) :=
  (COMMON_LICENSE_FILE_NAME_ROOTS.lookup license).map commonNamesFor

/-! ## License selection (`pick_most_acceptable_license`) -/

/-- One piece gets its leading character. -/
def consPiece (c : Char) : List (List Char) → List (List Char)
  | [] => [[c]]
  | p :: ps => (c :: p) :: ps

/-- The scan behind `re.split(r"\s*(?:/|\sOR\s)\s*", ...)`: split at every
`/` and at every whitespace-surrounded `OR`; right after a delimiter the
pattern's trailing `\s*` greedily consumes whitespace (the `skip` flag), so
that whitespace cannot start the next `\sOR\s` delimiter.  The `\s*` in
front of a delimiter stays in its piece; `str.strip()` removes it below. -/
def splitGo : Nat → Bool → List Char → List (List Char)
  | 0, _, _ => [[]]
  | _ + 1, _, [] => [[]]
  | fuel + 1, skip, c :: rest =>
    if skip && isSpace c then splitGo fuel true rest
    else if c = '/' then [] :: splitGo fuel true rest
    else
      match rest with
      | 'O' :: 'R' :: d :: rest' =>
        if isSpace c && isSpace d then [] :: splitGo fuel true rest'
        else consPiece c (splitGo fuel false rest)
      | _ => consPiece c (splitGo fuel false rest)

/-- `re.split(r"\s*(?:/|\sOR\s)\s*", licenseId)` (with each piece still
carrying the whitespace that borders a delimiter, stripped right after).
The fuel argument — one unit per character, at least one character is
consumed per step — only makes the recursion structural. -/
def splitLicense (l : List Char) : List (List Char) :=
  splitGo l.length false l

/-- `set(l.strip() for l in re.split(r"\s*(?:/|\sOR\s)\s*", licenseId))`,
as a list used only through membership. -/
def parsedLicenses (licenseId : String) : List String :=
  (splitLicense licenseId.data).map (fun l => String.mk (stripChars l))

/-- The message of the `RuntimeError` in `pick_most_acceptable_license`. -/
def pickErrMsg (id licenseId : String) : String :=
  "Could not determine acceptable license for " ++ id ++ "; license is '" ++
    licenseId ++ "'"

/-- `WorkspaceMetadata.pick_most_acceptable_license`: select the best license
under which to redistribute a dependency. -/
def pick_most_acceptable_license (id licenseId : String) : Except Err String :=
  match LICENES_IN_PREFERENCE_ORDER.find?
      (fun license => (parsedLicenses licenseId).contains license) with
  | some license => .ok license
  | none =>
    if "OpenSSL" ∈ parsedLicenses licenseId ∧ id = "ext-openssl" then .ok "OpenSSL"
    else .error (.rte (pickErrMsg id licenseId))

/-! ## External collaborators -/

/-- The filesystem and network, as the script sees them: `os.listdir`,
`open().read()` (`none` when the path cannot be read), and `requests.get`
(`none` models a non-2xx response, on which `raise_for_status` throws). -/
structure FileSystem where
  listDir : String → List String
  readFile : String → Option String
  httpGet : String → Option String

/-- The `cargo build --build-plan` collaborator: for a package name and a
target, the manifest paths listed under `"inputs"` of the build plan. -/
structure BuildPlans where
  inputs : String → String → List String

/-- The parsed `cargo metadata` document. -/
structure Metadata where
  packages : List PkgRecord
  workspace_members : List String
  workspace_root : String

/-! ## License text resolution (`_fetch_license_text`) -/

/-- The message of the ambiguous-candidates `RuntimeError` in
`_fetch_license_text` (built with `+=` over three lines in the script). -/
def multiLicenseFilesMsg (name : String) (found : List String) : String :=
  "Multiple ambiguous license files found for '" ++ name ++ "'.\n" ++
  "Please select the correct license file and add it to `PACKAGE_METADATA_FIXUPS`.\n" ++
  "Potential license files: " ++ formatStrList found

/-- The message of the no-candidate `RuntimeError` in `_fetch_license_text`. -/
def noLicenseFileMsg (name : String) (repository : Option String) : String :=
  "Could not find license file for '" ++ name ++ "'.\n" ++
  "Please locate the correct license file and add it to `PACKAGE_METADATA_FIXUPS`.\n" ++
  "You may need to poke around in the source repository at " ++ formatOpt repository

/-- `WorkspaceMetadata._fetch_license_text` (the `id` argument is accepted
and unused, as in the script). -/
def fetch_license_text (fs : FileSystem) (id license : String) (pkgInfo : PkgRecord) :
    Except Err String :=
  match pkgInfo.license_text with
  | some t => .ok t
  | none =>
    match pkgInfo.license_file with
    | some licenseFile =>
      if strStartsWith licenseFile "https://" then
        match fs.httpGet licenseFile with
        | some body => .ok body
        | none => .error (.httpError licenseFile)
      else
        let path := joinPath (dirname pkgInfo.manifest_path) licenseFile
        match fs.readFile path with
        | some t => .ok t
        | none => .error (.ioError path)
    | none =>
      let pkgRoot := dirname pkgInfo.manifest_path
      let licenseFileNames :=
        (COMMON_LICENSE_FILE_NAMES license).getD ((COMMON_LICENSE_FILE_NAMES "").getD [])
      let foundLicenseFiles :=
        (fs.listDir pkgRoot).filter (fun nm => licenseFileNames.contains (lowerStr nm))
      match foundLicenseFiles with
      | [nm] =>
        match fs.readFile (joinPath pkgRoot nm) with
        | some t => .ok t
        | none => .error (.ioError (joinPath pkgRoot nm))
      | found =>
        if found.length > 1 then
          .error (.rte (multiLicenseFilesMsg pkgInfo.name found))
        else
          .error (.rte (noLicenseFileMsg pkgInfo.name pkgInfo.repository))

/-! ## Metadata loading (`WorkspaceMetadata.__init__`) -/

/-- The message of the fixup-check `assert` in `WorkspaceMetadata.__init__`. -/
def fixupCheckMsg (name : String) (key : Field) (actual check : Option String) : String :=
  "Fixup check failed for " ++ name ++ "." ++ key.pyName ++ ": " ++
    formatOpt actual ++ " != " ++ formatOpt check

/-- Apply the `PACKAGE_METADATA_FIXUPS` entry for a package record, checking
each field's current value against the recorded `check` value before
replacing it with the `fixup` value when one is given (the loop body of
`WorkspaceMetadata.__init__`). -/
def applyFixups (info : PkgRecord) : Except Err PkgRecord :=
  match PACKAGE_METADATA_FIXUPS.lookup info.name with
  | none => .ok info
  | some fixups =>
    fixups.foldlM (fun acc kv =>
      if acc.getField kv.1 ≠ kv.2.check then
        .error (.assertionFailed (fixupCheckMsg acc.name kv.1 (acc.getField kv.1) kv.2.check))
      else
        match kv.2.fixup with
        | some v => .ok (acc.setField kv.1 v)
        | none => .ok acc) info

/-- The in-memory state `WorkspaceMetadata.__init__` builds: the indexes are
insertion-ordered association lists, as Python dicts are. -/
structure WorkspaceMetadata where
  metadata : Metadata
  pkgInfoById : List (String × PkgRecord)
  pkgInfoByManifestPath : List (String × PkgRecord)
  workspaceMembersByName : List (String × String)

/-- `WorkspaceMetadata.__init__`: skip deny-listed packages, fixup-check and
index the rest, then add the synthetic `EXTRA_PACKAGE_METADATA` entries and
index workspace members by name.  Each bare `assert` becomes an
`assertionFailed`. -/
def loadWorkspaceMetadata (metadata : Metadata) : Except Err WorkspaceMetadata := do
  let indexes ← metadata.packages.foldlM
    (fun (acc : List (String × PkgRecord) × List (String × PkgRecord)) info => do
      if info.name ∈ EXCLUDED_PACKAGES then
        pure acc
      else do
        let info ← applyFixups info
        if (acc.1.lookup info.id).isSome then
          throw (.assertionFailed "info['id'] not in self.pkgInfoById")
        if (acc.2.lookup info.manifest_path).isSome then
          throw (.assertionFailed "info['manifest_path'] not in self.pkgInfoByManifestPath")
        pure (acc.1 ++ [(info.id, info)], acc.2 ++ [(info.manifest_path, info)]))
    ([], [])
  let byId ← EXTRA_PACKAGE_METADATA.foldlM
    (fun (acc : List (String × PkgRecord)) p => do
      if (acc.lookup p.1).isSome then
        throw (.assertionFailed "name not in self.pkgInfoById")
      pure (acc ++ [p])) indexes.1
  let membersByName ← metadata.workspace_members.foldlM
    (fun (acc : List (String × String)) id => do
      match byId.lookup id with
      | none => throw (.keyError id)
      | some info =>
        if (acc.lookup info.name).isSome then
          throw (.assertionFailed "name not in self.workspaceMembersByName")
        pure (acc ++ [(info.name, id)])) []
  pure { metadata := metadata, pkgInfoById := byId,
         pkgInfoByManifestPath := indexes.2, workspaceMembersByName := membersByName }

/-- `self.pkgInfoById[id]`, `KeyError` on a miss. -/
def WorkspaceMetadata.get_package_by_id (ws : WorkspaceMetadata) (id : String) :
    Except Err PkgRecord :=
  match ws.pkgInfoById.lookup id with
  | some info => .ok info
  | none => .error (.keyError id)

/-- `self.pkgInfoByManifestPath[path]`, `KeyError` on a miss. -/
def WorkspaceMetadata.get_package_by_manifest_path (ws : WorkspaceMetadata) (path : String) :
    Except Err PkgRecord :=
  match ws.pkgInfoByManifestPath.lookup path with
  | some info => .ok info
  | none => .error (.keyError path)

/-! ## Target filtering and dependency resolution -/

/-- `WorkspaceMetadata.target_is_android`. -/
def target_is_android (target : String) : Bool :=
  strEndsWith target "-android" || strEndsWith target "-androideabi"

/-- `WorkspaceMetadata.target_is_ios`. -/
def target_is_ios (target : String) : Bool :=
  strEndsWith target "-ios"

/-- `WorkspaceMetadata.get_compatible_targets_for_package`: default to
`ALL_TARGETS` when no targets are requested (Python's `if not targets`
covers both `None` and an empty list; the `isinstance(targets, str)` branch
that wraps a bare string into a tuple is subsumed by taking a list), then
drop every iOS target whenever the package has a `cdylib` build target. -/
def WorkspaceMetadata.get_compatible_targets_for_package (ws : WorkspaceMetadata)
    (name : String) (targets : Option (List String)) : Except Err (List String) := do
  let requested := match targets with
    | none => ALL_TARGETS
    | some [] => ALL_TARGETS
    | some ts => ts
  let id ← match ws.workspaceMembersByName.lookup name with
    | some id => pure id
    | none => throw (.keyError name)
  let pkgInfo ← ws.get_package_by_id id
  pure (pkgInfo.targets.foldl (fun ts buildTarget =>
    if buildTarget.kind.contains "cdylib" then
      ts.filter (fun target => !(target_is_ios target))
    else ts) requested)

/-- `WorkspaceMetadata.get_extra_dependencies_not_managed_by_cargo` (its
`name` argument is rebound before being read in the script, hence unused). -/
def WorkspaceMetadata.get_extra_dependencies_not_managed_by_cargo
    (ws : WorkspaceMetadata) (name : String) (targets deps : List String) :
    Except Err (List String) := do
  let extras := targets.foldl (fun ex target =>
    let ex := if target_is_android target then
        insertSet "ext-protobuf" (insertSet "ext-jna" ex)
      else ex
    if target_is_ios target then insertSet "ext-swift-protobuf" ex else ex) []
  deps.foldlM (fun ex dep => do
    let info ← ws.get_package_by_id dep
    match PACKAGES_WITH_EXTRA_DEPENDENCIES.lookup info.name with
    | some more => pure (unionSet ex more)
    | none => pure ex) extras

/-- `WorkspaceMetadata.get_package_dependencies`: union, over every
compatible target, of the packages whose manifests are inputs of that
target's build plan, plus the extra non-cargo dependencies. -/
def WorkspaceMetadata.get_package_dependencies (ws : WorkspaceMetadata) (bp : BuildPlans)
    (name : String) (targets : Option (List String)) : Except Err (List String) := do
  let compatible ← ws.get_compatible_targets_for_package name targets
  let deps ← compatible.foldlM (fun deps target =>
    (bp.inputs name target).foldlM (fun deps manifestPath => do
      let info ← ws.get_package_by_manifest_path manifestPath
      pure (insertSet info.id deps)) deps) ([] : List String)
  let extras ← ws.get_extra_dependencies_not_managed_by_cargo name compatible deps
  pure (unionSet deps extras)

/-! ## External-dependency classification and license info -/

/-- Python's os.path commonPrefixOf helper: the character-wise longest common
prefix. -/
def commonPrefixOf : List Char → List Char → List Char
  | x :: xs, y :: ys => if x = y then x :: commonPrefixOf xs ys else []
  | _, _ => []

/-- `WorkspaceMetadata.is_external_dependency`: a package is external when
its `"source"` field is non-null, when it has no `"source"` field at all
(synthetic externally-managed packages), or when the character-wise common
prefix of its manifest path and the workspace root differs from the
workspace root. -/
def WorkspaceMetadata.is_external_dependency (ws : WorkspaceMetadata) (id : String) :
    Except Err Bool := do
  let pkgInfo ← ws.get_package_by_id id
  match pkgInfo.source with
  | some (some _) => pure true
  | none => pure true
  | some none =>
    let root := String.mk (commonPrefixOf pkgInfo.manifest_path.data ws.metadata.workspace_root.data)
    if root ≠ ws.metadata.workspace_root then pure true else pure false

/-- The resolved per-dependency record `get_license_info` yields. -/
structure LicenseInfo where
  name : String
  repository : Option String
  license : String
  license_text : String
deriving DecidableEq

/-- `WorkspaceMetadata.get_license_info`.  A `null` license field reaches
`re.split` as `None` in the script and raises a `TypeError` there. -/
def WorkspaceMetadata.get_license_info (ws : WorkspaceMetadata) (fs : FileSystem)
    (id : String) : Except Err LicenseInfo := do
  let pkgInfo ← ws.get_package_by_id id
  let chosenLicense ← match pkgInfo.license with
    | some licenseId => pick_most_acceptable_license id licenseId
    | none => throw (.typeError "expected string or bytes-like object")
  let text ← fetch_license_text fs id chosenLicense pkgInfo
  pure { name := pkgInfo.name, repository := pkgInfo.repository,
         license := chosenLicense, license_text := text }

/-- `WorkspaceMetadata.get_dependency_summary`: resolve the dependency
closure (of one named package, or the union over all workspace members),
check for stale fixup entries in the full-workspace case, and yield the
license info of every external dependency. -/
def WorkspaceMetadata.get_dependency_summary (ws : WorkspaceMetadata) (bp : BuildPlans)
    (fs : FileSystem) (name : Option String) (targets : Option (List String)) :
    Except Err (List LicenseInfo) := do
  let deps ← match name with
    | some n => ws.get_package_dependencies bp n targets
    | none => do
      let deps ← ws.workspaceMembersByName.foldlM (fun deps p => do
        let more ← ws.get_package_dependencies bp p.1 targets
        pure (unionSet deps more)) ([] : List String)
      let allDepNames ← deps.mapM (fun dep => do
        let info ← ws.get_package_by_id dep
        pure info.name)
      let unnecessaryDeps := (PACKAGE_METADATA_FIXUPS.map Prod.fst).filter
        (fun dep => !(allDepNames.contains dep))
      if unnecessaryDeps ≠ [] then
        throw (.unnecessaryFixups unnecessaryDeps)
      pure deps
  deps.foldlM (fun acc id => do
    let ext ← ws.is_external_dependency id
    if ext then do
      let info ← ws.get_license_info fs id
      pure (acc ++ [info])
    else
      pure acc) []

/-! ## The report renderer (`print_dependency_summary`) -/

/-- Models `hashlib.sha256(text.encode("utf8")).hexdigest()`.  The digest is
used only as (part of) a grouping key, i.e. only through equality, and
distinct hashed texts have distinct SHA-256 digests (collision-freedom), so
the digest is modelled as the hashed text itself: an injective stand-in for
the external hash library with the same equality behaviour. -/
def sha256_hexdigest (text : String) : String :=
  text

/-- `"".join(text.split())`: the text with every whitespace character removed. -/
def stripAllWs (s : String) : String :=
  ⟨s.data.filter (fun c => !(isSpace c))⟩

/-- The grouping key of `print_dependency_summary`: the bare license kind for
the licenses known to share boilerplate text, otherwise the kind plus the
digest of the whitespace-stripped license text. -/
def licenseTextHashOf (info : LicenseInfo) : String :=
  if info.license ∈ (["MPL-2.0", "Apache-2.0", "OpenSSL"] : List String) then
    info.license
  else
    info.license ++ ":" ++ sha256_hexdigest (stripAllWs info.license_text)

/-- Append a record to its group (a `collections.defaultdict(list)` update:
new keys go to the end, existing groups grow at the end). -/
def addToGroup (k : String) (i : LicenseInfo) :
    List (String × List LicenseInfo) → List (String × List LicenseInfo)
  | [] => [(k, [i])]
  | (k', g) :: rest =>
    if k' = k then (k', g ++ [i]) :: rest else (k', g) :: addToGroup k i rest

/-- `depsByLicenseTextHash`: the records grouped by `licenseTextHashOf`, keys
in first-occurrence order, each group in input order. -/
def depsByLicenseTextHash (deps : List LicenseInfo) : List (String × List LicenseInfo) :=
  deps.foldl (fun acc info => addToGroup (licenseTextHashOf info) info acc) []

/-- A group's member names, sorted (`sorted(info["name"] for info in ...)`). -/
def groupNames (g : List LicenseInfo) : List String :=
  List.insertionSort (fun a b => strLe a b = true) (g.map (fun i => i.name))

/-- `sort_key`: the position of the first preference-list license the key
starts with (falling back to one past the end), then the sorted member
names. -/
def sort_key (groups : List (String × List LicenseInfo)) (key : String) : Nat × List String :=
  let names := groupNames ((groups.lookup key).getD [])
  match LICENES_IN_PREFERENCE_ORDER.findIdx? (fun license => strStartsWith key license) with
  | some i => (i, names)
  | none => (LICENES_IN_PREFERENCE_ORDER.length, names)

/-- `sections = sorted(depsByLicenseTextHash.keys(), key=sort_key)`; Python's
stable ascending sort is insertion sort by the reflexive total `sortKeyLe`. -/
def sectionsOf (groups : List (String × List LicenseInfo)) : List String :=
  List.insertionSort (fun a b => sortKeyLe (sort_key groups a) (sort_key groups b) = true)
    (groups.map Prod.fst)

/-- `sorted(set(l))`: the distinct values in ascending order. -/
def sortedDedup (l : List String) : List String :=
  List.insertionSort (fun a b => strLe a b = true) l.dedup

/-- `format_license_header`. -/
def format_license_header (license : String) (deps : List LicenseInfo) : String :=
  if license = "MPL-2.0" then "Mozilla Public License 2.0"
  else if license = "Apache-2.0" then "Apache License 2.0"
  else if license = "OpenSSL" then "OpenSSL License"
  else
    let kind := String.mk (license.data.takeWhile (fun c => c ≠ ':'))
    let names := sortedDedup (deps.map (fun i => i.name))
    kind ++ " License: " ++ joinStrings ", " names

/-- `s.replace(String.singleton o, String.singleton n)` for one-character
patterns: every occurrence is replaced. -/
def replaceCharWith (o n : Char) (l : List Char) : List Char :=
  l.map (fun c => if c = o then n else c)

/-- `s.replace(String.singleton o, "")` for one-character patterns: every
occurrence is removed. -/
def dropChar (o : Char) (l : List Char) : List Char :=
  l.filter (fun c => c ≠ o)

/-- `header_to_anchor`: `header.lower().replace(" ", "-").replace(".", "")
.replace(",", "").replace(":", "")`. -/
def header_to_anchor (header : String) : String :=
  ⟨dropChar ':' (dropChar ',' (dropChar '.' (replaceCharWith ' ' '-'
    (header.data.map toLowerChar))))⟩

/-- The `for dep in deps: ... break / else: raise` scan choosing a section's
license text: the first member text is used, except that an `Apache-2.0`
group keeps scanning (in sorted member order) for a text that still has the
`[yyyy]` copyright placeholder and fails when none has it.  An empty member
list runs the `else` clause, i.e. raises. -/
def pickSectionText (licenseTextHash : String) : List LicenseInfo → Except Err String
  | [] => .error (.rte "Could not find appropriate apache license text")
  | dep :: deps =>
    if (licenseTextHash != "Apache-2.0") || strContains dep.license_text "[yyyy]" then
      .ok dep.license_text
    else
      pickSectionText licenseTextHash deps

/-- The fixed lines `print_dependency_summary` emits before the table of
contents. -/
def introLines : List String :=
  ["# Licenses for Third-Party Dependencies",
   "",
   "Software packages built from this source code may incorporate code from a number of third-party dependencies.",
   "These dependencies are available under a variety of free and open source licenses,",
   "the details of which are reproduced below.",
   ""]

/-- One table-of-contents line. -/
def tocLine (groups : List (String × List LicenseInfo)) (key : String) : String :=
  let header := format_license_header key ((groups.lookup key).getD [])
  "* [" ++ header ++ "](#" ++ header_to_anchor header ++ ")"

/-- `"[{}]({})".format(info["name"], info["repository"])`. -/
def pkgLink (info : LicenseInfo) : String :=
  "[" ++ info.name ++ "](" ++ formatOpt info.repository ++ ")"

/-- One license section's lines for an already name-sorted member list:
header, deduped package links (`pkgs = sorted(set(...))`), and the chosen
license text in a fenced block (the `assert "```" not in licenseText`
becomes an `assertionFailed`). -/
def sectionRender (key : String) (deps : List LicenseInfo) :
    Except Err (List String) := do
  let licenseText ← pickSectionText key deps
  if strContains licenseText "```" then
    throw (.assertionFailed "'```' not in licenseText")
  pure ["## " ++ format_license_header key deps,
        "",
        "This license applies to code linked from the following dependendencies: " ++
          joinStrings ", " (sortedDedup (deps.map pkgLink)),
        "",
        "```",
        licenseText,
        "```",
        "-------------"]

/-- One license section's lines: the members sorted by name
(`sorted(..., key=lambda i: i["name"])`), then rendered. -/
def sectionLines (groups : List (String × List LicenseInfo)) (key : String) :
    Except Err (List String) :=
  sectionRender key (List.insertionSort (fun a b => strLe a.name b.name = true)
    ((groups.lookup key).getD []))

/-- `print_dependency_summary`, as the list of lines it prints (the script
streams them to a file; an exception makes the whole run fail, modelled as
the `Except` error). -/
def print_dependency_summary (deps : List LicenseInfo) : Except Err (List String) := do
  let groups := depsByLicenseTextHash deps
  let sections := sectionsOf groups
  let toc := sections.map (tocLine groups)
  let details ← sections.foldlM (fun acc key => do
    let lines ← sectionLines groups key
    pure (acc ++ lines)) ([] : List String)
  pure (introLines ++ toc ++ ["-------------"] ++ details)

/-! ## The command-line entry point (`__main__`) -/

/-- One element of `args.targets` as argparse accumulates it: `--target X`
appends a string, `--all-android-targets` / `--all-ios-targets` append a
whole list (`append_const`). -/
inductive TargetArg where
  | single (t : String)
  | group (ts : List String)
deriving DecidableEq

/-- The parsed command line.  `targets = []` stands for argparse's `None`
(no target flag given): argparse can never produce an empty accumulated
list, and `if args.targets:` treats `None` and `[]` alike.  The `--check`
drift-comparison flag only diffs the finished output against a file and is
not modelled. -/
structure Args where
  package : Option String
  targets : List TargetArg
  json : Bool
deriving DecidableEq

/-- The `itertools.chain` flattening of `args.targets`. -/
def flattenTargets (l : List TargetArg) : List String :=
  (l.map (fun t => match t with | .single s => [s] | .group g => g)).flatten

/-- What the run produces: the structured record list (`--json`) or the
formatted document's lines. -/
inductive MainOutput where
  | jsonOut (deps : List LicenseInfo)
  | docOut (lines : List String)
deriving DecidableEq

/-- The `__main__` block: validate the argument combination, then (and only
then) load the workspace metadata (`get_workspace_metadata` shells out to
the package manager; its parsed document is the `metadata` input here),
compute the summary and render it. -/
def runMain (args : Args) (metadata : Metadata) (bp : BuildPlans) (fs : FileSystem) :
    Except Err MainOutput := do
  if args.targets ≠ [] ∧ args.package = none then
    throw (.rte "You must specify a package name when specifying targets")
  let targets := if args.targets = [] then none else some (flattenTargets args.targets)
  let ws ← loadWorkspaceMetadata metadata
  let deps ← ws.get_dependency_summary bp fs args.package targets
  if args.json then
    pure (.jsonOut deps)
  else do
    let lines ← print_dependency_summary deps
    pure (.docOut lines)

/-! ## Concrete fixtures used by the witnesses -/

/-- An empty cargo-metadata document over workspace root `/ws`. -/
def emptyMetadata : Metadata :=
  { packages := [], workspace_members := [], workspace_root := "/ws" }

/-- A build-plan collaborator with empty build plans. -/
def trivialBp : BuildPlans :=
  { inputs := fun _ _ => [] }

/-- An empty filesystem/network. -/
def trivialFs : FileSystem :=
  { listDir := fun _ => [], readFile := fun _ => none, httpGet := fun _ => none }

/-- A registry package record under the workspace root. -/
def sampleRegistryPkg : PkgRecord :=
  { id := "id-foo", name := "foo", license := some "MIT",
    license_file := none, repository := some "https://example.com/foo",
    manifest_path := "/ws/vendor/foo/Cargo.toml", source := some (some "registry+https://crates.io"),
    targets := [{ kind := ["cdylib"] }], license_text := none }

/-- A workspace-metadata fixture with the single package `foo`, which is also
the only workspace member. -/
def sampleWs : WorkspaceMetadata :=
  { metadata := { packages := [sampleRegistryPkg], workspace_members := ["id-foo"],
                  workspace_root := "/ws" },
    pkgInfoById := [("id-foo", sampleRegistryPkg)],
    pkgInfoByManifestPath := [("/ws/vendor/foo/Cargo.toml", sampleRegistryPkg)],
    workspaceMembersByName := [("foo", "id-foo")] }

/-- A package record with no declared license file and two conventional
license files in its directory — the ambiguous case of
`_fetch_license_text`. -/
def ambiguousPkg : PkgRecord :=
  { id := "id-amb", name := "amb", license := some "MIT",
    license_file := none, repository := some "REPOURLX",
    manifest_path := "/ws/vendor/amb/Cargo.toml", source := some (some "registry"),
    targets := [], license_text := none }

/-- A filesystem on which `amb`'s directory holds two conventional license
file names. -/
def ambiguousFs : FileSystem :=
  { listDir := fun d => if d = "/ws/vendor/amb" then ["LICENSE", "LICENSE.md"] else [],
    readFile := fun _ => none, httpGet := fun _ => none }

/-- A filesystem on which `amb`'s directory holds exactly one conventional
license file name. -/
def singleFs : FileSystem :=
  { listDir := fun d => if d = "/ws/vendor/amb" then ["README.md", "LICENSE"] else [],
    readFile := fun p => if p = "/ws/vendor/amb/LICENSE" then some "MIT license text" else none,
    httpGet := fun _ => none }

/-- The `ring` package as cargo reports it: a `null` license field (its
fixup entry expects `None` and replaces it with `ISC`). -/
def ringRec : PkgRecord :=
  { id := "id-ring", name := "ring", license := none, license_file := none,
    repository := some "https://github.com/briansmith/ring",
    manifest_path := "/reg/ring/Cargo.toml", source := some (some "registry"),
    targets := [], license_text := none }

/-- A workspace loaded from the empty metadata document: only the synthetic
extra packages are indexed and there are no workspace members. -/
def wsEmpty : WorkspaceMetadata :=
  { metadata := emptyMetadata, pkgInfoById := EXTRA_PACKAGE_METADATA,
    pkgInfoByManifestPath := [], workspaceMembersByName := [] }

/-- Two resolved records sharing the package name `pkg` but with different
MIT license texts: they land in different groups whose sort keys tie. -/
def cxA : LicenseInfo :=
  { name := "pkg", repository := none, license := "MIT", license_text := "a" }

/-- The second record of the duplicate-name pair. -/
def cxB : LicenseInfo :=
  { name := "pkg", repository := none, license := "MIT", license_text := "b" }

/-- A resolved record with package name `a`. -/
def wA : LicenseInfo :=
  { name := "a", repository := none, license := "MIT", license_text := "ta" }

/-- A resolved record with package name `b`. -/
def wB : LicenseInfo :=
  { name := "b", repository := none, license := "MIT", license_text := "tb" }

/-! ## Helper lemmas -/

theorem list_find?_congr {p q : α → Bool} :
    ∀ {l : List α}, (∀ a ∈ l, p a = q a) → l.find? p = l.find? q := by
  intro l
  induction l with
  | nil => intro _; rfl
  | cons a t ih =>
    intro h
    simp only [List.find?_cons]
    rw [h a (by simp)]
    cases q a with
    | true => rfl
    | false => exact ih (fun x hx => h x (by simp [hx]))

theorem contains_iff_mem (l : List String) (a : String) :
    l.contains a = true ↔ a ∈ l :=
  List.elem_iff

/-! ## Claim C1: license selection -/

/-- C1: for every package id and declared license expression, splitting the
expression on `/` or whitespace-surrounded `OR` gives the candidate set
`parsedLicenses`; when some preference-list license is a candidate,
`pick_most_acceptable_license` returns the first preference-list license
among the candidates (`List.find?` over the fixed preference order), and the
result is the same for any expression with the same candidate set; when no
preference-list license is a candidate, it returns `"OpenSSL"` exactly when
`"OpenSSL"` is a candidate and the package id is `"ext-openssl"`, and
otherwise raises the error naming the package id and the raw license
string. -/
theorem c1_license_selection (id licenseId : String) :
    ((∃ l ∈ LICENES_IN_PREFERENCE_ORDER, l ∈ parsedLicenses licenseId) →
      ∃ l, LICENES_IN_PREFERENCE_ORDER.find?
            (fun license => (parsedLicenses licenseId).contains license) = some l ∧
        pick_most_acceptable_license id licenseId = .ok l ∧
        ∀ licenseId' : String,
          (∀ s, s ∈ parsedLicenses licenseId' ↔ s ∈ parsedLicenses licenseId) →
          pick_most_acceptable_license id licenseId' = .ok l) ∧
    ((¬ ∃ l ∈ LICENES_IN_PREFERENCE_ORDER, l ∈ parsedLicenses licenseId) →
      (pick_most_acceptable_license id licenseId = .ok "OpenSSL" ↔
        "OpenSSL" ∈ parsedLicenses licenseId ∧ id = "ext-openssl") ∧
      (("OpenSSL" ∉ parsedLicenses licenseId ∨ id ≠ "ext-openssl") →
        pick_most_acceptable_license id licenseId =
          .error (.rte (pickErrMsg id licenseId)))) := by
  constructor
  · rintro ⟨l0, hl0, hmem⟩
    have hsome : (LICENES_IN_PREFERENCE_ORDER.find?
        (fun license => (parsedLicenses licenseId).contains license)).isSome := by
      rw [List.find?_isSome]
      exact ⟨l0, hl0, (contains_iff_mem _ _).mpr hmem⟩
    obtain ⟨l, hf⟩ := Option.isSome_iff_exists.mp hsome
    refine ⟨l, hf, ?_, ?_⟩
    · unfold pick_most_acceptable_license
      simp only [hf]
    · intro licenseId' hiff
      unfold pick_most_acceptable_license
      have hf' : LICENES_IN_PREFERENCE_ORDER.find?
          (fun license => (parsedLicenses licenseId').contains license) = some l := by
        have hcong : LICENES_IN_PREFERENCE_ORDER.find?
            (fun license => (parsedLicenses licenseId').contains license) =
            LICENES_IN_PREFERENCE_ORDER.find?
            (fun license => (parsedLicenses licenseId).contains license) := by
          apply list_find?_congr
          intro a _
          by_cases hmem' : a ∈ parsedLicenses licenseId
          · rw [(contains_iff_mem _ _).mpr ((hiff a).mpr hmem'),
              (contains_iff_mem _ _).mpr hmem']
          · have h1 : (parsedLicenses licenseId').contains a = false := by
              rw [← Bool.not_eq_true]
              intro hc
              exact hmem' ((hiff a).mp ((contains_iff_mem _ _).mp hc))
            have h2 : (parsedLicenses licenseId).contains a = false := by
              rw [← Bool.not_eq_true]
              intro hc
              exact hmem' ((contains_iff_mem _ _).mp hc)
            rw [h1, h2]
        rw [hcong]
        exact hf
      simp only [hf']
  · intro hno
    have hf : LICENES_IN_PREFERENCE_ORDER.find?
        (fun license => (parsedLicenses licenseId).contains license) = none := by
      cases h : LICENES_IN_PREFERENCE_ORDER.find?
          (fun license => (parsedLicenses licenseId).contains license) with
      | none => rfl
      | some x =>
        exact absurd ⟨x, List.mem_of_find?_eq_some h,
          (contains_iff_mem _ _).mp (List.find?_some h)⟩ hno
    unfold pick_most_acceptable_license
    simp only [hf]
    constructor
    · by_cases hc : "OpenSSL" ∈ parsedLicenses licenseId ∧ id = "ext-openssl"
      · simp [hc]
      · rw [if_neg hc]
        constructor
        · intro h; exact absurd h (by simp)
        · intro h; exact absurd h hc
    · intro hor
      have hc : ¬("OpenSSL" ∈ parsedLicenses licenseId ∧ id = "ext-openssl") := by
        rintro ⟨h1, h2⟩
        rcases hor with h | h
        · exact h h1
        · exact h h2
      simp [hc]

/-- Witness for C1 at a concrete input: the package `x` with license
expression `MIT/Apache-2.0` resolves to `Apache-2.0`, the first
preference-list entry among the candidates. -/
theorem c1_license_selection_witness :
    pick_most_acceptable_license "x" "MIT/Apache-2.0" = .ok "Apache-2.0" := by
  obtain ⟨l, hf, hp, _⟩ :=
    (c1_license_selection "x" "MIT/Apache-2.0").1 ⟨"Apache-2.0", by decide, by decide⟩
  have hl : l = "Apache-2.0" := by
    have hconc : LICENES_IN_PREFERENCE_ORDER.find?
        (fun license => (parsedLicenses "MIT/Apache-2.0").contains license) =
        some "Apache-2.0" := by decide
    rw [hconc] at hf
    exact (Option.some_injective _ hf.symm)
  rw [hl] at hp
  exact hp

/-! ## Claim C9: header anchors -/

/-- C9 counterexample: the claim says spaces are *removed* from the
lowercased header, but `header_to_anchor` replaces each space with a
hyphen: on the header `A B` the code yields `a-b`, not the `ab` the claim
predicts. -/
theorem c9_anchor_counterexample :
    header_to_anchor "A B" = "a-b" ∧
    String.mk ((("A B").data.map toLowerChar).filter
      (fun c => !(([' ', '.', ',', ':'] : List Char).contains c))) = "ab" ∧
    header_to_anchor "A B" ≠
      String.mk ((("A B").data.map toLowerChar).filter
        (fun c => !(([' ', '.', ',', ':'] : List Char).contains c))) := by
  decide

/-- C9 (amended): for every header, the anchor equals the header lowercased
with every space replaced by a hyphen and every period, comma and colon
removed, no other character altered. -/
theorem c9_anchor_amended (header : String) :
    header_to_anchor header =
      String.mk (((header.data.map toLowerChar).map
          (fun c => if c = ' ' then '-' else c)).filter
        (fun c => c != '.' && c != ',' && c != ':')) := by
  unfold header_to_anchor dropChar replaceCharWith
  rw [List.filter_filter, List.filter_filter]
  congr 1
  apply List.filter_congr
  intro x _
  by_cases h1 : x = '.' <;> by_cases h2 : x = ',' <;> by_cases h3 : x = ':' <;>
    simp [h1, h2, h3]

/-! ## Claim C10: targets require a package selector -/

/-- C10: whenever the command line carries at least one target flag
(`--target` or either `--all-…-targets` group flag) but no `--package`
selector, the run fails with the `You must specify a package name when
specifying targets` error, for every possible metadata document, build-plan
collaborator and filesystem — in particular before the package-manager
metadata command or any build-plan query can influence the outcome. -/
theorem c10_targets_require_package (args : Args)
    (htargets : args.targets ≠ []) (hpackage : args.package = none) :
    ∀ (metadata : Metadata) (bp : BuildPlans) (fs : FileSystem),
      runMain args metadata bp fs =
        .error (.rte "You must specify a package name when specifying targets") := by
  intro metadata bp fs
  unfold runMain
  rw [if_pos ⟨htargets, hpackage⟩]
  rfl

/-- Witness for C10: a run invoked with one explicit target and no package
name fails with the expected error on the empty fixtures. -/
theorem c10_targets_require_package_witness :
    runMain { package := none, targets := [.single "x86_64-apple-ios"], json := false }
        emptyMetadata trivialBp trivialFs =
      .error (.rte "You must specify a package name when specifying targets") :=
  c10_targets_require_package
    { package := none, targets := [.single "x86_64-apple-ios"], json := false }
    (by decide) rfl emptyMetadata trivialBp trivialFs

/-! ## Claim C7: external-dependency classification -/

theorem commonprefix_eq_right_iff :
    ∀ (a b : List Char), commonPrefixOf a b = b ↔ b <+: a := by
  intro a b
  induction b generalizing a with
  | nil =>
    constructor
    · intro _; exact List.nil_prefix
    · intro _
      cases a with
      | nil => rfl
      | cons x xs => rfl
  | cons y ys ih =>
    cases a with
    | nil => simp [commonPrefixOf]
    | cons x xs =>
      by_cases hxy : x = y
      · subst hxy
        simp [commonPrefixOf, List.cons_prefix_cons, ih]
      · have hyx : y ≠ x := fun h => hxy h.symm
        simp [commonPrefixOf, hxy, List.cons_prefix_cons, hyx]

theorem string_mk_eq_iff (l : List Char) (s : String) :
    String.mk l = s ↔ l = s.data := by
  cases s with
  | mk data =>
    constructor
    · intro h; cases h; rfl
    · intro h; cases h; rfl

theorem except_bind_ok {ε α β : Type _} (a : α) (f : α → Except ε β) :
    (Except.ok a >>= f) = f a := rfl

theorem except_bind_error {ε α β : Type _} (e : ε) (f : α → Except ε β) :
    ((Except.error e : Except ε α) >>= f) = Except.error e := rfl

theorem except_pure_eq {ε α : Type _} (a : α) :
    (pure a : Except ε α) = Except.ok a := rfl

/-- C7: for every indexed package record, `is_external_dependency` returns
`true` exactly when the record's `source` field is present and non-null, or
the record has no `source` field at all, or the workspace root is not a
(character-wise) prefix of the manifest path — and returns `false` (the
workspace-local case) exactly when the source is a JSON `null` and the
workspace root is a prefix of the manifest path. -/
theorem c7_is_external_dependency (ws : WorkspaceMetadata) (id : String)
    (rec : PkgRecord) (h : ws.pkgInfoById.lookup id = some rec) :
    (ws.is_external_dependency id = .ok true ↔
      (∃ s, rec.source = some (some s)) ∨ rec.source = none ∨
        ¬ (ws.metadata.workspace_root.data <+: rec.manifest_path.data)) ∧
    (ws.is_external_dependency id = .ok false ↔
      rec.source = some none ∧
        ws.metadata.workspace_root.data <+: rec.manifest_path.data) := by
  have hget : ws.get_package_by_id id = .ok rec := by
    unfold WorkspaceMetadata.get_package_by_id
    rw [h]
  rcases hsrc : rec.source with _ | inner
  · have hval : ws.is_external_dependency id = .ok true := by
      unfold WorkspaceMetadata.is_external_dependency
      rw [hget, except_bind_ok, hsrc]
      rfl
    rw [hval]
    constructor
    · simp [hsrc]
    · simp [hsrc]
  · rcases inner with _ | s
    · have hval : ws.is_external_dependency id =
          (if String.mk (commonPrefixOf rec.manifest_path.data
               ws.metadata.workspace_root.data) ≠ ws.metadata.workspace_root then
             .ok true
           else .ok false) := by
        unfold WorkspaceMetadata.is_external_dependency
        rw [hget, except_bind_ok, hsrc]
        rfl
      rw [hval]
      by_cases hpre : ws.metadata.workspace_root.data <+: rec.manifest_path.data
      · have hroot : ¬ (String.mk (commonPrefixOf rec.manifest_path.data
            ws.metadata.workspace_root.data) ≠ ws.metadata.workspace_root) := by
          intro hc
          exact hc ((string_mk_eq_iff _ _).mpr ((commonprefix_eq_right_iff _ _).mpr hpre))
        rw [if_neg hroot]
        constructor
        · constructor
          · intro hc; exact absurd hc (by simp)
          · rintro (⟨s, hs⟩ | hs | hs)
            · exact absurd hs (by simp)
            · exact absurd hs (by simp)
            · exact absurd hpre hs
        · constructor
          · intro _; exact ⟨rfl, hpre⟩
          · intro _; rfl
      · have hroot : String.mk (commonPrefixOf rec.manifest_path.data
            ws.metadata.workspace_root.data) ≠ ws.metadata.workspace_root := by
          rw [Ne, string_mk_eq_iff]
          intro hc
          exact hpre ((commonprefix_eq_right_iff _ _).mp hc)
        rw [if_pos hroot]
        constructor
        · constructor
          · intro _; exact Or.inr (Or.inr hpre)
          · intro _; rfl
        · constructor
          · intro hc; exact absurd hc (by simp)
          · rintro ⟨_, hp⟩; exact absurd hp hpre
    · have hval : ws.is_external_dependency id = .ok true := by
        unfold WorkspaceMetadata.is_external_dependency
        rw [hget, except_bind_ok, hsrc]
        rfl
      rw [hval]
      constructor
      · constructor
        · intro _; exact Or.inl ⟨s, rfl⟩
        · intro _; rfl
      · constructor
        · intro hc; exact absurd hc (by simp)
        · rintro ⟨hp, _⟩; exact absurd hp (by simp)

/-- Witness for C7: the registry package of the fixture workspace (non-null
`source`) is classified external. -/
theorem c7_is_external_dependency_witness :
    sampleWs.is_external_dependency "id-foo" = .ok true :=
  (c7_is_external_dependency sampleWs "id-foo" sampleRegistryPkg rfl).1.mpr
    (Or.inl ⟨"registry+https://crates.io", rfl⟩)

/-! ## Claim C6: iOS targets dropped for cdylib packages -/

theorem filter_idem (p : α → Bool) (l : List α) :
    (l.filter p).filter p = l.filter p := by
  rw [List.filter_filter]
  apply List.filter_congr
  intro x _
  cases p x <;> rfl

theorem foldl_cdylib_filter (bts : List BuildTarget) (ts : List String) :
    bts.foldl (fun acc bt =>
        if bt.kind.contains "cdylib" then acc.filter (fun t => !(target_is_ios t))
        else acc) ts =
      if ∃ bt ∈ bts, "cdylib" ∈ bt.kind then ts.filter (fun t => !(target_is_ios t))
      else ts := by
  induction bts generalizing ts with
  | nil => simp
  | cons bt rest ih =>
    rw [List.foldl_cons]
    by_cases hbt : "cdylib" ∈ bt.kind
    · rw [if_pos ((contains_iff_mem _ _).mpr hbt)]
      rw [ih]
      rw [if_pos (show ∃ b ∈ bt :: rest, "cdylib" ∈ b.kind from ⟨bt, by simp, hbt⟩)]
      by_cases hrest : ∃ b ∈ rest, "cdylib" ∈ b.kind
      · rw [if_pos hrest, filter_idem]
      · rw [if_neg hrest]
    · rw [if_neg (fun hc => hbt ((contains_iff_mem _ _).mp hc))]
      rw [ih]
      have hiff : (∃ b ∈ bt :: rest, "cdylib" ∈ b.kind) ↔
          (∃ b ∈ rest, "cdylib" ∈ b.kind) := by
        constructor
        · rintro ⟨b, hb, hk⟩
          rcases List.mem_cons.mp hb with rfl | hb'
          · exact absurd hk hbt
          · exact ⟨b, hb', hk⟩
        · rintro ⟨b, hb, hk⟩
          exact ⟨b, List.mem_cons_of_mem _ hb, hk⟩
      by_cases hrest : ∃ b ∈ rest, "cdylib" ∈ b.kind
      · rw [if_pos hrest, if_pos (hiff.mpr hrest)]
      · rw [if_neg hrest, if_neg (fun hc => hrest (hiff.mp hc))]

theorem exceptFoldlM_congr {ε α β : Type _} {f g : β → α → Except ε β} :
    ∀ {l : List α}, (∀ a ∈ l, ∀ acc, f acc a = g acc a) → ∀ init : β,
      l.foldlM f init = l.foldlM g init := by
  intro l
  induction l with
  | nil => intro _ _; rfl
  | cons a t ih =>
    intro h init
    show f init a >>= _ = g init a >>= _
    rw [h a (by simp) init]
    cases hg : g init a with
    | error e => rfl
    | ok b =>
      show List.foldlM f b t = List.foldlM g b t
      exact ih (fun x hx acc => h x (by simp [hx]) acc) b

/-- C6: when the root package has a `cdylib` build target, the effective
target list is the requested (or default full) list with every target whose
name ends in `-ios` removed, others kept in order; without a `cdylib`
target the requested (or default full) list is kept unchanged; and the
dependency computation consults build plans only at the effective targets
(two build-plan collaborators agreeing there give identical results). -/
theorem c6_ios_targets_dropped (ws : WorkspaceMetadata) (name : String)
    (targets : Option (List String)) (id : String) (pkgInfo : PkgRecord)
    (hid : ws.workspaceMembersByName.lookup name = some id)
    (hpkg : ws.pkgInfoById.lookup id = some pkgInfo) :
    ((∃ bt ∈ pkgInfo.targets, "cdylib" ∈ bt.kind) →
      ws.get_compatible_targets_for_package name targets =
        .ok ((match targets with
              | none => ALL_TARGETS
              | some [] => ALL_TARGETS
              | some ts => ts).filter (fun t => !(strEndsWith t "-ios")))) ∧
    ((∀ bt ∈ pkgInfo.targets, "cdylib" ∉ bt.kind) →
      ws.get_compatible_targets_for_package name targets =
        .ok (match targets with
             | none => ALL_TARGETS
             | some [] => ALL_TARGETS
             | some ts => ts)) ∧
    (∀ (bp bp' : BuildPlans) (compatible : List String),
      ws.get_compatible_targets_for_package name targets = .ok compatible →
      (∀ t ∈ compatible, bp.inputs name t = bp'.inputs name t) →
      ws.get_package_dependencies bp name targets =
        ws.get_package_dependencies bp' name targets) := by
  have hget : ws.get_package_by_id id = .ok pkgInfo := by
    unfold WorkspaceMetadata.get_package_by_id
    rw [hpkg]
  have hcompat : ws.get_compatible_targets_for_package name targets =
      .ok (pkgInfo.targets.foldl (fun acc bt =>
        if bt.kind.contains "cdylib" then acc.filter (fun t => !(target_is_ios t))
        else acc) (match targets with
                   | none => ALL_TARGETS
                   | some [] => ALL_TARGETS
                   | some ts => ts)) := by
    unfold WorkspaceMetadata.get_compatible_targets_for_package
    rw [hid]
    simp only [hget, except_pure_eq, except_bind_ok]
  refine ⟨?_, ?_, ?_⟩
  · intro hcd
    rw [hcompat, foldl_cdylib_filter, if_pos hcd]
    rfl
  · intro hncd
    rw [hcompat, foldl_cdylib_filter, if_neg ?_]
    rintro ⟨bt, hbt, hk⟩
    exact hncd bt hbt hk
  · intro bp bp' compatible hcomp hagree
    have hfold : compatible.foldlM (fun deps target =>
        (bp.inputs name target).foldlM (fun deps manifestPath => do
          let info ← ws.get_package_by_manifest_path manifestPath
          pure (insertSet info.id deps)) deps) ([] : List String) =
        compatible.foldlM (fun deps target =>
          (bp'.inputs name target).foldlM (fun deps manifestPath => do
            let info ← ws.get_package_by_manifest_path manifestPath
            pure (insertSet info.id deps)) deps) ([] : List String) :=
      exceptFoldlM_congr (fun t ht acc => by rw [hagree t ht]) []
    unfold WorkspaceMetadata.get_package_dependencies
    rw [hcomp, except_bind_ok, except_bind_ok, hfold]

/-- Witness for C6: the fixture package `foo` builds a `cdylib`, so an
explicitly requested iOS target is dropped while a desktop target is kept. -/
theorem c6_ios_targets_dropped_witness :
    sampleWs.get_compatible_targets_for_package "foo"
        (some ["x86_64-apple-ios", "x86_64-unknown-linux-gnu"]) =
      .ok ["x86_64-unknown-linux-gnu"] := by
  have h := (c6_ios_targets_dropped sampleWs "foo"
    (some ["x86_64-apple-ios", "x86_64-unknown-linux-gnu"])
    "id-foo" sampleRegistryPkg rfl rfl).1
    ⟨{ kind := ["cdylib"] }, by decide, by decide⟩
  rw [h]
  rfl

/-! ## Claim C2: license-file search by naming convention -/

theorem containsSub_infix_iff (n : List Char) :
    ∀ h : List Char, containsSub n h = true ↔ n <:+: h := by
  intro h
  induction h with
  | nil => simp [containsSub, List.isEmpty_iff, List.infix_nil]
  | cons c t ih =>
    simp only [containsSub, Bool.or_eq_true, List.isPrefixOf_iff_prefix, ih,
      List.infix_cons_iff]

theorem strContains_of_infix {s t : String} (h : t.data <:+: s.data) :
    strContains s t = true :=
  (containsSub_infix_iff _ _).mpr h

theorem infix_append_of_infix_right {α : Type _} {x b : List α} (a : List α)
    (h : x <:+: b) : x <:+: a ++ b := by
  obtain ⟨s, t, rfl⟩ := h
  exact ⟨a ++ s, t, by simp⟩

theorem infix_append_of_infix_left {α : Type _} {x a : List α} (b : List α)
    (h : x <:+: a) : x <:+: a ++ b := by
  obtain ⟨s, t, rfl⟩ := h
  exact ⟨s, t ++ b, by simp⟩

theorem strContains_noMsg_name (name : String) (repo : Option String) :
    strContains (noLicenseFileMsg name repo) name = true := by
  apply strContains_of_infix
  unfold noLicenseFileMsg
  simp only [String.data_append]
  exact infix_append_of_infix_left _ (infix_append_of_infix_left _
    (infix_append_of_infix_left _ (infix_append_of_infix_left _
      (infix_append_of_infix_right _ (List.infix_refl _)))))

theorem strContains_noMsg_repo (name r : String) :
    strContains (noLicenseFileMsg name (some r)) r = true := by
  apply strContains_of_infix
  unfold noLicenseFileMsg
  simp only [formatOpt, String.data_append]
  exact infix_append_of_infix_right _ (List.infix_refl _)

theorem strContains_multiMsg_name (name : String) (found : List String) :
    strContains (multiLicenseFilesMsg name found) name = true := by
  apply strContains_of_infix
  unfold multiLicenseFilesMsg
  simp only [String.data_append]
  exact infix_append_of_infix_left _ (infix_append_of_infix_left _
    (infix_append_of_infix_left _ (infix_append_of_infix_left _
      (infix_append_of_infix_right _ (List.infix_refl _)))))

theorem infix_quoted (nm : String) :
    nm.data <:+: ("'" ++ nm ++ "'").data := by
  simp only [String.data_append]
  exact infix_append_of_infix_left _ (infix_append_of_infix_right _ (List.infix_refl _))

theorem infix_joinStrings_of_mem (nm : String) :
    ∀ l : List String, nm ∈ l →
      nm.data <:+: (joinStrings ", " (l.map (fun s => "'" ++ s ++ "'"))).data := by
  intro l
  induction l with
  | nil => intro h; exact absurd h (by simp)
  | cons x rest ih =>
    intro hmem
    cases rest with
    | nil =>
      have hx : nm = x := by simpa using hmem
      subst hx
      exact infix_quoted nm
    | cons y t =>
      rcases List.mem_cons.mp hmem with rfl | hmem'
      · show nm.data <:+:
          (("'" ++ nm ++ "'") ++ ", " ++ joinStrings ", " ((y :: t).map (fun s => "'" ++ s ++ "'"))).data
        simp only [String.data_append]
        exact infix_append_of_infix_left _ (infix_append_of_infix_left _
          (infix_quoted nm))
      · show nm.data <:+:
          (("'" ++ x ++ "'") ++ ", " ++ joinStrings ", " ((y :: t).map (fun s => "'" ++ s ++ "'"))).data
        simp only [String.data_append]
        exact infix_append_of_infix_right _ (ih hmem')

theorem strContains_multiMsg_mem (name : String) (found : List String) (nm : String)
    (h : nm ∈ found) : strContains (multiLicenseFilesMsg name found) nm = true := by
  apply strContains_of_infix
  unfold multiLicenseFilesMsg formatStrList
  simp only [String.data_append]
  exact infix_append_of_infix_right _ (infix_append_of_infix_left _
    (infix_append_of_infix_right _ (infix_joinStrings_of_mem nm found h)))

theorem mem_insertSet {β : Type _} [DecidableEq β] (x y : β) (l : List β) :
    x ∈ insertSet y l ↔ x = y ∨ x ∈ l := by
  unfold insertSet
  by_cases hy : y ∈ l
  · rw [if_pos hy]
    constructor
    · intro h; exact Or.inr h
    · rintro (rfl | h)
      · exact hy
      · exact h
  · rw [if_neg hy]
    simp [List.mem_append, or_comm]

theorem mem_foldl_insertSet {α β : Type _} [DecidableEq β] (f : α → β) :
    ∀ (l : List α) (init : List β) (x : β),
      (x ∈ l.foldl (fun acc a => insertSet (f a) acc) init) ↔
        x ∈ init ∨ ∃ a ∈ l, x = f a := by
  intro l
  induction l with
  | nil => simp
  | cons a t ih =>
    intro init x
    rw [List.foldl_cons, ih, mem_insertSet]
    constructor
    · rintro ((rfl | hi) | ⟨b, hb, rfl⟩)
      · exact Or.inr ⟨a, by simp, rfl⟩
      · exact Or.inl hi
      · exact Or.inr ⟨b, by simp [hb], rfl⟩
    · rintro (hi | ⟨b, hb, rfl⟩)
      · exact Or.inl (Or.inr hi)
      · rcases List.mem_cons.mp hb with rfl | hb'
        · exact Or.inl (Or.inl rfl)
        · exact Or.inr ⟨b, hb', rfl⟩

theorem mem_commonNamesFor (roots : List String) (s : String) :
    s ∈ commonNamesFor roots ↔
      ∃ suffix ∈ COMMON_LICENSE_FILE_NAME_SUFFIXES,
        ∃ root ∈ roots ++ ["license", "licence"], s = root ++ suffix := by
  unfold commonNamesFor
  have hgen : ∀ (sufs : List String) (init : List String),
      s ∈ sufs.foldl (fun acc suffix =>
        (["license", "licence"] : List String).foldl
          (fun a root => insertSet (root ++ suffix) a)
          (roots.foldl (fun a root => insertSet (root ++ suffix) a) acc)) init ↔
      s ∈ init ∨ ∃ suffix ∈ sufs, ∃ root ∈ roots ++ ["license", "licence"],
        s = root ++ suffix := by
    intro sufs
    induction sufs with
    | nil => simp
    | cons suf rest ih =>
      intro init
      rw [List.foldl_cons, ih, mem_foldl_insertSet, mem_foldl_insertSet]
      constructor
      · rintro (((hi | ⟨r, hr, rfl⟩) | ⟨r, hr, rfl⟩) | ⟨suf', hsuf', r, hr, rfl⟩)
        · exact Or.inl hi
        · exact Or.inr ⟨suf, by simp, r, List.mem_append_left _ hr, rfl⟩
        · exact Or.inr ⟨suf, by simp, r, List.mem_append_right _ hr, rfl⟩
        · exact Or.inr ⟨suf', by simp [hsuf'], r, hr, rfl⟩
      · rintro (hi | ⟨suf', hsuf', r, hr, rfl⟩)
        · exact Or.inl (Or.inl (Or.inl hi))
        · rcases List.mem_cons.mp hsuf' with rfl | hsuf''
          · rcases List.mem_append.mp hr with hr' | hr'
            · exact Or.inl (Or.inl (Or.inr ⟨r, hr', rfl⟩))
            · exact Or.inl (Or.inr ⟨r, hr', rfl⟩)
          · exact Or.inr ⟨suf', hsuf'', r, hr, rfl⟩
  rw [hgen]
  simp

/-- The license-file-name set `_fetch_license_text` searches with, for a
chosen license kind (with the `KeyError` fallback to the generic set). -/
theorem mem_license_file_names (license s : String) :
    s ∈ (COMMON_LICENSE_FILE_NAMES license).getD
        ((COMMON_LICENSE_FILE_NAMES "").getD []) ↔
      ∃ suffix ∈ COMMON_LICENSE_FILE_NAME_SUFFIXES,
        ∃ root ∈ ((COMMON_LICENSE_FILE_NAME_ROOTS.lookup license).getD []) ++
          ["license", "licence"], s = root ++ suffix := by
  unfold COMMON_LICENSE_FILE_NAMES
  cases hlk : COMMON_LICENSE_FILE_NAME_ROOTS.lookup license with
  | some roots => simp [mem_commonNamesFor]
  | none =>
    have h0 : COMMON_LICENSE_FILE_NAME_ROOTS.lookup "" = some ["license", "licence"] := rfl
    rw [h0]
    simp only [Option.map_none', Option.map_some', Option.getD_none, Option.getD_some,
      mem_commonNamesFor, List.mem_append, List.nil_append]
    exact exists_congr (fun suf => and_congr_right (fun _ => by tauto))

set_option maxRecDepth 10000 in
/-- C2 counterexample: on a package directory holding the two conventional
names `LICENSE` and `LICENSE.md`, `_fetch_license_text` raises the
ambiguous-candidates error, and that error message does *not* contain the
package's repository URL — against the claim that every such error names
the repository URL. -/
theorem c2_ambiguous_no_repository_counterexample :
    fetch_license_text ambiguousFs "id-amb" "MIT" ambiguousPkg =
      .error (.rte (multiLicenseFilesMsg "amb" ["LICENSE", "LICENSE.md"])) ∧
    ambiguousPkg.repository = some "REPOURLX" ∧
    strContains (multiLicenseFilesMsg "amb" ["LICENSE", "LICENSE.md"]) "REPOURLX" = false := by
  refine ⟨by decide, rfl, by decide⟩

/-- C2 (amended): with no pre-embedded license text and no declared license
file, the search filters the manifest directory's listing by
case-insensitive membership in the conventional-roots-plus-generic-roots
name set with suffixes `""`/`.md`/`.txt`; exactly one match returns that
file's contents; no match raises an error containing the package name and
repository URL; two or more matches raise an error containing the package
name and every candidate filename (but, unlike the original claim, not the
repository URL) — it never silently picks among multiple candidates. -/
theorem c2_license_file_search (fs : FileSystem) (id license : String)
    (pkgInfo : PkgRecord) (htext : pkgInfo.license_text = none)
    (hfile : pkgInfo.license_file = none) :
    ((fs.listDir (dirname pkgInfo.manifest_path)).filter (fun nm =>
        ((COMMON_LICENSE_FILE_NAMES license).getD
          ((COMMON_LICENSE_FILE_NAMES "").getD [])).contains (lowerStr nm)) =
      (fs.listDir (dirname pkgInfo.manifest_path)).filter (fun nm =>
        decide (∃ suffix ∈ COMMON_LICENSE_FILE_NAME_SUFFIXES,
          ∃ root ∈ ((COMMON_LICENSE_FILE_NAME_ROOTS.lookup license).getD []) ++
            ["license", "licence"], lowerStr nm = root ++ suffix))) ∧
    (∀ nm t, (fs.listDir (dirname pkgInfo.manifest_path)).filter (fun nm =>
        ((COMMON_LICENSE_FILE_NAMES license).getD
          ((COMMON_LICENSE_FILE_NAMES "").getD [])).contains (lowerStr nm)) = [nm] →
      fs.readFile (joinPath (dirname pkgInfo.manifest_path) nm) = some t →
      fetch_license_text fs id license pkgInfo = .ok t) ∧
    ((fs.listDir (dirname pkgInfo.manifest_path)).filter (fun nm =>
        ((COMMON_LICENSE_FILE_NAMES license).getD
          ((COMMON_LICENSE_FILE_NAMES "").getD [])).contains (lowerStr nm)) = [] →
      fetch_license_text fs id license pkgInfo =
        .error (.rte (noLicenseFileMsg pkgInfo.name pkgInfo.repository)) ∧
      strContains (noLicenseFileMsg pkgInfo.name pkgInfo.repository) pkgInfo.name = true ∧
      (∀ r, pkgInfo.repository = some r →
        strContains (noLicenseFileMsg pkgInfo.name pkgInfo.repository) r = true)) ∧
    (∀ found, (fs.listDir (dirname pkgInfo.manifest_path)).filter (fun nm =>
        ((COMMON_LICENSE_FILE_NAMES license).getD
          ((COMMON_LICENSE_FILE_NAMES "").getD [])).contains (lowerStr nm)) = found →
      2 ≤ found.length →
      fetch_license_text fs id license pkgInfo =
        .error (.rte (multiLicenseFilesMsg pkgInfo.name found)) ∧
      strContains (multiLicenseFilesMsg pkgInfo.name found) pkgInfo.name = true ∧
      (∀ nm ∈ found, strContains (multiLicenseFilesMsg pkgInfo.name found) nm = true)) := by
  have hval : fetch_license_text fs id license pkgInfo =
      (match (fs.listDir (dirname pkgInfo.manifest_path)).filter (fun nm =>
          ((COMMON_LICENSE_FILE_NAMES license).getD
            ((COMMON_LICENSE_FILE_NAMES "").getD [])).contains (lowerStr nm)) with
       | [nm] =>
         match fs.readFile (joinPath (dirname pkgInfo.manifest_path) nm) with
         | some t => .ok t
         | none => .error (.ioError (joinPath (dirname pkgInfo.manifest_path) nm))
       | found =>
         if found.length > 1 then
           .error (.rte (multiLicenseFilesMsg pkgInfo.name found))
         else
           .error (.rte (noLicenseFileMsg pkgInfo.name pkgInfo.repository))) := by
    unfold fetch_license_text
    rw [htext, hfile]
  refine ⟨?_, ?_, ?_, ?_⟩
  · apply List.filter_congr
    intro nm _
    by_cases hmem : lowerStr nm ∈ (COMMON_LICENSE_FILE_NAMES license).getD
        ((COMMON_LICENSE_FILE_NAMES "").getD [])
    · rw [(contains_iff_mem _ _).mpr hmem, decide_eq_true
        ((mem_license_file_names license (lowerStr nm)).mp hmem)]
    · have h1 : ((COMMON_LICENSE_FILE_NAMES license).getD
          ((COMMON_LICENSE_FILE_NAMES "").getD [])).contains (lowerStr nm) = false := by
        rw [← Bool.not_eq_true]
        intro hc
        exact hmem ((contains_iff_mem _ _).mp hc)
      have h2 : decide (∃ suffix ∈ COMMON_LICENSE_FILE_NAME_SUFFIXES,
          ∃ root ∈ ((COMMON_LICENSE_FILE_NAME_ROOTS.lookup license).getD []) ++
            ["license", "licence"], lowerStr nm = root ++ suffix) = false := by
        rw [decide_eq_false_iff_not]
        intro hc
        exact hmem ((mem_license_file_names license (lowerStr nm)).mpr hc)
      rw [h1, h2]
  · intro nm t hfound hread
    rw [hval, hfound]
    show (match fs.readFile (joinPath (dirname pkgInfo.manifest_path) nm) with
          | some t => (Except.ok t : Except Err String)
          | none => .error (.ioError (joinPath (dirname pkgInfo.manifest_path) nm))) = .ok t
    rw [hread]
  · intro hfound
    rw [hval, hfound]
    exact ⟨rfl, strContains_noMsg_name _ _, fun r hr => by
      rw [hr]; exact strContains_noMsg_repo _ _⟩
  · intro found hfound hlen
    rw [hval, hfound]
    have hbranch : (match found with
        | [nm] =>
          match fs.readFile (joinPath (dirname pkgInfo.manifest_path) nm) with
          | some t => (.ok t : Except Err String)
          | none => .error (.ioError (joinPath (dirname pkgInfo.manifest_path) nm))
        | found =>
          if found.length > 1 then
            .error (.rte (multiLicenseFilesMsg pkgInfo.name found))
          else
            .error (.rte (noLicenseFileMsg pkgInfo.name pkgInfo.repository))) =
        .error (.rte (multiLicenseFilesMsg pkgInfo.name found)) := by
      match found, hlen with
      | x :: y :: rest, _ =>
        show (if (x :: y :: rest).length > 1 then
            Except.error (Err.rte (multiLicenseFilesMsg pkgInfo.name (x :: y :: rest)))
          else
            Except.error (Err.rte (noLicenseFileMsg pkgInfo.name pkgInfo.repository))) = _
        rw [if_pos (by simp [List.length_cons])]
    rw [hbranch]
    exact ⟨rfl, strContains_multiMsg_name _ _,
      fun nm hnm => strContains_multiMsg_mem _ _ _ hnm⟩

/-- Witness for C2 (amended): on a directory whose only conventional license
file name is `LICENSE`, the search returns that file's contents. -/
theorem c2_license_file_search_witness :
    fetch_license_text singleFs "id-amb" "MIT" ambiguousPkg = .ok "MIT license text" :=
  (c2_license_file_search singleFs "id-amb" "MIT" ambiguousPkg rfl rfl).2.1
    "LICENSE" "MIT license text" (by decide) (by decide)

/-! ## Claim C3: fixup checking at load time -/

theorem except_throw_eq {ε α : Type _} (e : ε) :
    (throw e : Except ε α) = Except.error e := rfl

theorem bind_eq_ok {ε α β : Type _} {x : Except ε α} {f : α → Except ε β} {b : β} :
    x >>= f = .ok b ↔ ∃ a, x = .ok a ∧ f a = .ok b := by
  cases x with
  | error e =>
    constructor
    · intro h
      rw [except_bind_error] at h
      exact absurd h (by simp)
    · rintro ⟨a, ha, _⟩
      exact absurd ha (by simp)
  | ok a =>
    rw [except_bind_ok]
    constructor
    · intro h; exact ⟨a, rfl, h⟩
    · rintro ⟨a', ha, hf⟩
      cases ha
      exact hf

theorem getField_setField (r : PkgRecord) (f : Field) (v : String) (g : Field) :
    (r.setField f v).getField g = if g = f then some v else r.getField g := by
  cases f <;> cases g <;> simp [PkgRecord.setField, PkgRecord.getField]

theorem setField_preserves (r : PkgRecord) (f : Field) (v : String) :
    (r.setField f v).id = r.id ∧ (r.setField f v).name = r.name ∧
    (r.setField f v).manifest_path = r.manifest_path ∧
    (r.setField f v).source = r.source ∧ (r.setField f v).targets = r.targets ∧
    (r.setField f v).license_text = r.license_text := by
  cases f <;> simp [PkgRecord.setField]

theorem fixup_fold_ok (info : PkgRecord) :
    ∀ (l : List (Field × FixupEntry)) (acc : PkgRecord),
      (∀ kv ∈ l, acc.getField kv.1 = info.getField kv.1) →
      (l.map Prod.fst).Nodup →
      (∀ kv ∈ l, info.getField kv.1 = kv.2.check) →
      ∃ acc', (l.foldlM (fun acc kv =>
          if acc.getField kv.1 ≠ kv.2.check then
            Except.error (Err.assertionFailed
              (fixupCheckMsg acc.name kv.1 (acc.getField kv.1) kv.2.check))
          else
            match kv.2.fixup with
            | some v => Except.ok (acc.setField kv.1 v)
            | none => Except.ok acc) acc) = .ok acc' ∧
        (∀ f : Field, acc'.getField f =
          (match l.find? (fun kv => kv.1 == f) with
           | some kv => match kv.2.fixup with
             | some v => some v
             | none => acc.getField f
           | none => acc.getField f)) ∧
        acc'.id = acc.id ∧ acc'.name = acc.name ∧
        acc'.manifest_path = acc.manifest_path ∧ acc'.source = acc.source ∧
        acc'.targets = acc.targets ∧ acc'.license_text = acc.license_text := by
  intro l
  induction l with
  | nil =>
    intro acc _ _ _
    exact ⟨acc, rfl, fun f => rfl, rfl, rfl, rfl, rfl, rfl, rfl⟩
  | cons kv t ih =>
    intro acc hag hnd hok
    have hhead : acc.getField kv.1 = kv.2.check := by
      rw [hag kv (by simp)]
      exact hok kv (by simp)
    rw [List.foldlM_cons, if_neg (not_not_intro hhead)]
    have hndt : (t.map Prod.fst).Nodup := (List.nodup_cons.mp hnd).2
    have hnotin : kv.1 ∉ t.map Prod.fst := (List.nodup_cons.mp hnd).1
    have hfind_t_head : t.find? (fun kv' => kv'.1 == kv.1) = none := by
      rw [List.find?_eq_none]
      intro x hx hbeq
      exact hnotin (List.mem_map.mpr ⟨x, hx, (beq_iff_eq.mp hbeq)⟩)
    cases hfix : kv.2.fixup with
    | some v =>
      rw [except_bind_ok]
      have hag' : ∀ kv' ∈ t, (acc.setField kv.1 v).getField kv'.1 = info.getField kv'.1 := by
        intro kv' hkv'
        rw [getField_setField]
        rw [if_neg (fun hc => hnotin (by
          rw [← hc]; exact List.mem_map.mpr ⟨kv', hkv', rfl⟩))]
        exact hag kv' (by simp [hkv'])
      obtain ⟨acc', hfold, hchar, hid, hname, hman, hsrc, htgt, htxt⟩ :=
        ih (acc.setField kv.1 v) hag' hndt (fun kv' hkv' => hok kv' (by simp [hkv']))
      obtain ⟨pid, pname, pman, psrc, ptgt, ptxt⟩ := setField_preserves acc kv.1 v
      refine ⟨acc', hfold, ?_, hid.trans pid, hname.trans pname, hman.trans pman,
        hsrc.trans psrc, htgt.trans ptgt, htxt.trans ptxt⟩
      intro f
      by_cases hf : f = kv.1
      · subst hf
        have hL : acc'.getField kv.1 = some v := by
          rw [hchar kv.1, hfind_t_head]
          show (acc.setField kv.1 v).getField kv.1 = some v
          rw [getField_setField, if_pos rfl]
        have hR : (match (kv :: t).find? (fun kv' => kv'.1 == kv.1) with
            | some kv' => match kv'.2.fixup with
              | some v => some v
              | none => acc.getField kv.1
            | none => acc.getField kv.1) = some v := by
          rw [List.find?_cons_of_pos _ (by simp)]
          show (match kv.2.fixup with
            | some v => some v
            | none => acc.getField kv.1) = some v
          rw [hfix]
        rw [hL, hR]
      · rw [hchar f, List.find?_cons_of_neg _ (by simpa using Ne.symm hf)]
        cases hft : t.find? (fun kv' => kv'.1 == f) with
        | some kv' =>
          show (match kv'.2.fixup with
                | some v => some v
                | none => (acc.setField kv.1 v).getField f) =
              (match kv'.2.fixup with
                | some v => some v
                | none => acc.getField f)
          cases hfix' : kv'.2.fixup with
          | some w => rfl
          | none =>
            show (acc.setField kv.1 v).getField f = acc.getField f
            rw [getField_setField, if_neg hf]
        | none =>
          show (acc.setField kv.1 v).getField f = acc.getField f
          rw [getField_setField, if_neg hf]
    | none =>
      rw [except_bind_ok]
      obtain ⟨acc', hfold, hchar, hid, hname, hman, hsrc, htgt, htxt⟩ :=
        ih acc (fun kv' hkv' => hag kv' (by simp [hkv'])) hndt
          (fun kv' hkv' => hok kv' (by simp [hkv']))
      refine ⟨acc', hfold, ?_, hid, hname, hman, hsrc, htgt, htxt⟩
      intro f
      by_cases hf : f = kv.1
      · subst hf
        have hL : acc'.getField kv.1 = acc.getField kv.1 := by
          rw [hchar kv.1, hfind_t_head]
        have hR : (match (kv :: t).find? (fun kv' => kv'.1 == kv.1) with
            | some kv' => match kv'.2.fixup with
              | some v => some v
              | none => acc.getField kv.1
            | none => acc.getField kv.1) = acc.getField kv.1 := by
          rw [List.find?_cons_of_pos _ (by simp)]
          show (match kv.2.fixup with
            | some v => some v
            | none => acc.getField kv.1) = acc.getField kv.1
          rw [hfix]
        rw [hL, hR]
      · rw [hchar f, List.find?_cons_of_neg _ (by simpa using Ne.symm hf)]

theorem fixup_fold_err (info : PkgRecord) :
    ∀ (l : List (Field × FixupEntry)) (acc : PkgRecord),
      (∀ kv ∈ l, acc.getField kv.1 = info.getField kv.1) →
      (l.map Prod.fst).Nodup →
      (∃ kv ∈ l, info.getField kv.1 ≠ kv.2.check) →
      ∃ msg, (l.foldlM (fun acc kv =>
          if acc.getField kv.1 ≠ kv.2.check then
            Except.error (Err.assertionFailed
              (fixupCheckMsg acc.name kv.1 (acc.getField kv.1) kv.2.check))
          else
            match kv.2.fixup with
            | some v => Except.ok (acc.setField kv.1 v)
            | none => Except.ok acc) acc) = .error (.assertionFailed msg) := by
  intro l
  induction l with
  | nil =>
    intro acc _ _ hbad
    exact absurd hbad (by simp)
  | cons kv t ih =>
    intro acc hag hnd hbad
    rw [List.foldlM_cons]
    by_cases hhead : acc.getField kv.1 ≠ kv.2.check
    · rw [if_pos hhead, except_bind_error]
      exact ⟨_, rfl⟩
    · rw [if_neg hhead]
      have hmatch : acc.getField kv.1 = kv.2.check := not_not.mp hhead
      have hbad' : ∃ kv' ∈ t, info.getField kv'.1 ≠ kv'.2.check := by
        rcases hbad with ⟨kv', hkv', hne⟩
        rcases List.mem_cons.mp hkv' with heq | hmem
        · subst heq
          exact absurd ((hag kv' (by simp)).symm.trans hmatch) hne
        · exact ⟨kv', hmem, hne⟩
      have hndt : (t.map Prod.fst).Nodup := (List.nodup_cons.mp hnd).2
      have hnotin : kv.1 ∉ t.map Prod.fst := (List.nodup_cons.mp hnd).1
      cases hfix : kv.2.fixup with
      | some v =>
        rw [except_bind_ok]
        have hag' : ∀ kv' ∈ t, (acc.setField kv.1 v).getField kv'.1 =
            info.getField kv'.1 := by
          intro kv' hkv'
          rw [getField_setField]
          rw [if_neg (fun hc => hnotin (by
            rw [← hc]; exact List.mem_map.mpr ⟨kv', hkv', rfl⟩))]
          exact hag kv' (by simp [hkv'])
        exact ih (acc.setField kv.1 v) hag' hndt hbad'
      | none =>
        rw [except_bind_ok]
        exact ih acc (fun kv' hkv' => hag kv' (by simp [hkv'])) hndt hbad'

theorem extra_fold_ok :
    ∀ (l : List (String × PkgRecord)) (acc res : List (String × PkgRecord)),
      (l.foldlM (fun acc p =>
        if (acc.lookup p.1).isSome then
          throw (Err.assertionFailed "name not in self.pkgInfoById")
        else pure (acc ++ [p])) acc : Except Err (List (String × PkgRecord))) = .ok res →
      res = acc ++ l := by
  intro l
  induction l with
  | nil =>
    intro acc res h
    cases h
    simp
  | cons p t ih =>
    intro acc res h
    rw [List.foldlM_cons] at h
    cases hdup : (acc.lookup p.1).isSome with
    | true =>
      simp only [hdup, if_true, except_throw_eq, except_bind_error] at h
      exact absurd h (by simp)
    | false =>
      simp only [hdup, Bool.false_eq_true, if_false, except_pure_eq,
        except_bind_ok] at h
      rw [ih _ _ h]
      simp

theorem pkg_fold_props :
    ∀ (packages : List PkgRecord)
      (acc res : List (String × PkgRecord) × List (String × PkgRecord)),
      (packages.foldlM (fun acc info =>
        if info.name ∈ EXCLUDED_PACKAGES then
          pure acc
        else do
          let info ← applyFixups info
          if (acc.1.lookup info.id).isSome then
            throw (Err.assertionFailed "info['id'] not in self.pkgInfoById")
          if (acc.2.lookup info.manifest_path).isSome then
            throw (Err.assertionFailed "info['manifest_path'] not in self.pkgInfoByManifestPath")
          pure (acc.1 ++ [(info.id, info)], acc.2 ++ [(info.manifest_path, info)])) acc
        : Except Err (List (String × PkgRecord) × List (String × PkgRecord))) = .ok res →
      (∀ x ∈ acc.1, x ∈ res.1) ∧
      (∀ rec ∈ packages, rec.name ∉ EXCLUDED_PACKAGES →
        ∃ rec', applyFixups rec = .ok rec' ∧ (rec'.id, rec') ∈ res.1) := by
  intro packages
  induction packages with
  | nil =>
    intro acc res h
    cases h
    exact ⟨fun x hx => hx, fun rec hrec => absurd hrec (by simp)⟩
  | cons info t ih =>
    intro acc res h
    rw [List.foldlM_cons] at h
    by_cases hexc : info.name ∈ EXCLUDED_PACKAGES
    · rw [if_pos hexc, except_pure_eq, except_bind_ok] at h
      obtain ⟨hmono, hall⟩ := ih _ _ h
      refine ⟨hmono, ?_⟩
      intro rec hrec hnexc
      rcases List.mem_cons.mp hrec with rfl | hmem
      · exact absurd hexc hnexc
      · exact hall rec hmem hnexc
    · rw [if_neg hexc] at h
      cases happ : applyFixups info with
      | error e =>
        rw [happ] at h
        simp only [except_bind_error] at h
        exact absurd h (by simp)
      | ok info' =>
        rw [happ] at h
        simp only [except_bind_ok] at h
        cases hdup1 : (acc.1.lookup info'.id).isSome with
        | true =>
          simp only [hdup1, if_true, except_throw_eq, except_bind_error] at h
          exact absurd h (by simp)
        | false =>
          simp only [hdup1, Bool.false_eq_true, if_false, except_pure_eq,
            except_bind_ok] at h
          cases hdup2 : (acc.2.lookup info'.manifest_path).isSome with
          | true =>
            simp only [hdup2, if_true, except_throw_eq, except_bind_error] at h
            exact absurd h (by simp)
          | false =>
            simp only [hdup2, Bool.false_eq_true, if_false, except_pure_eq,
              except_bind_ok] at h
            obtain ⟨hmono, hall⟩ := ih _ _ h
            constructor
            · intro x hx
              exact hmono x (by simp [hx])
            · intro rec hrec hnexc
              rcases List.mem_cons.mp hrec with heq | hmem
              · subst heq
                exact ⟨info', happ, hmono _ (by simp)⟩
              · exact hall rec hmem hnexc

/-- C3: during metadata loading, a loaded (non-deny-listed) package whose
name is in the fixup table has every listed field checked against the
entry's recorded expected value — any mismatch turns into a hard
`assertionFailed` error so the load cannot succeed — and only when all
checks pass is each field with a replacement value overwritten (all other
record parts unchanged); packages whose names are absent from the table
pass through unchanged; and every record synthesized from
`EXTRA_PACKAGE_METADATA` is indexed verbatim, never fixup-checked. -/
theorem c3_fixup_checking :
    (∀ info : PkgRecord, PACKAGE_METADATA_FIXUPS.lookup info.name = none →
      applyFixups info = .ok info) ∧
    (∀ (info : PkgRecord) (fixups : List (Field × FixupEntry)),
      PACKAGE_METADATA_FIXUPS.lookup info.name = some fixups →
      (fixups.map Prod.fst).Nodup →
      ((∃ kv ∈ fixups, info.getField kv.1 ≠ kv.2.check) →
        ∃ msg, applyFixups info = .error (.assertionFailed msg)) ∧
      ((∀ kv ∈ fixups, info.getField kv.1 = kv.2.check) →
        ∃ info', applyFixups info = .ok info' ∧
          (∀ f : Field, info'.getField f =
            (match fixups.find? (fun kv => kv.1 == f) with
             | some kv => match kv.2.fixup with
               | some v => some v
               | none => info.getField f
             | none => info.getField f)) ∧
          info'.id = info.id ∧ info'.name = info.name ∧
          info'.manifest_path = info.manifest_path ∧ info'.source = info.source ∧
          info'.targets = info.targets ∧ info'.license_text = info.license_text)) ∧
    (∀ (metadata : Metadata) (ws : WorkspaceMetadata),
      loadWorkspaceMetadata metadata = .ok ws →
      (∀ p ∈ EXTRA_PACKAGE_METADATA, p ∈ ws.pkgInfoById) ∧
      (∀ rec ∈ metadata.packages, rec.name ∉ EXCLUDED_PACKAGES →
        ∃ rec', applyFixups rec = .ok rec' ∧ (rec'.id, rec') ∈ ws.pkgInfoById)) ∧
    (∀ metadata : Metadata,
      (∃ rec ∈ metadata.packages, rec.name ∉ EXCLUDED_PACKAGES ∧
        ∀ rec', applyFixups rec ≠ .ok rec') →
      ∀ ws, loadWorkspaceMetadata metadata ≠ .ok ws) := by
  have hmain : ∀ (metadata : Metadata) (ws : WorkspaceMetadata),
      loadWorkspaceMetadata metadata = .ok ws →
      (∀ p ∈ EXTRA_PACKAGE_METADATA, p ∈ ws.pkgInfoById) ∧
      (∀ rec ∈ metadata.packages, rec.name ∉ EXCLUDED_PACKAGES →
        ∃ rec', applyFixups rec = .ok rec' ∧ (rec'.id, rec') ∈ ws.pkgInfoById) := by
    intro metadata ws h
    unfold loadWorkspaceMetadata at h
    obtain ⟨indexes, hidx, h2⟩ := bind_eq_ok.mp h
    obtain ⟨byId, hbyId, h3⟩ := bind_eq_ok.mp h2
    obtain ⟨members, hmem, h4⟩ := bind_eq_ok.mp h3
    have hws : ws.pkgInfoById = byId := by
      cases h4
      rfl
    have hextra := extra_fold_ok _ _ _ hbyId
    obtain ⟨hmono, hall⟩ := pkg_fold_props _ _ _ hidx
    constructor
    · intro p hp
      rw [hws, hextra]
      exact List.mem_append_right _ hp
    · intro rec hrec hnexc
      obtain ⟨rec', happ, hmem'⟩ := hall rec hrec hnexc
      refine ⟨rec', happ, ?_⟩
      rw [hws, hextra]
      exact List.mem_append_left _ hmem'
  refine ⟨?_, ?_, hmain, ?_⟩
  · intro info hlk
    unfold applyFixups
    rw [hlk]
  · intro info fixups hlk hnd
    constructor
    · intro hbad
      obtain ⟨msg, hmsg⟩ := fixup_fold_err info fixups info (fun _ _ => rfl) hnd hbad
      refine ⟨msg, ?_⟩
      unfold applyFixups
      rw [hlk]
      exact hmsg
    · intro hok
      obtain ⟨info', hfold, hchar, hrest⟩ :=
        fixup_fold_ok info fixups info (fun _ _ => rfl) hnd hok
      refine ⟨info', ?_, hchar, hrest⟩
      unfold applyFixups
      rw [hlk]
      exact hfold
  · intro metadata ⟨rec, hrec, hnexc, hbad⟩ ws hok
    obtain ⟨_, hall⟩ := hmain metadata ws hok
    obtain ⟨rec', happ, _⟩ := hall rec hrec hnexc
    exact hbad rec' happ

/-- Witness for C3: the `ring` record (null license) passes its fixup check
and comes out with its license replaced by `ISC`. -/
theorem c3_fixup_checking_witness :
    ∃ info', applyFixups ringRec = .ok info' ∧
      info'.getField Field.license = some "ISC" := by
  obtain ⟨info', happ, hchar, _⟩ :=
    ((c3_fixup_checking.2.1 ringRec
      [(Field.license, { check := none, fixup := some "ISC" })] (by decide)
      (by decide)).2 (by decide))
  refine ⟨info', happ, ?_⟩
  rw [hchar Field.license]
  decide

/-! ## Claim C8: the Apache placeholder scan -/

/-- C8: a non-`Apache-2.0` section emits the first name-sorted member's
license text with no further requirement; the `Apache-2.0` section emits
the first text (in the name-sorted member order the renderer passes in)
still containing the `[yyyy]` placeholder, and errors when no member's
text contains it; and the renderer's section builder indeed emits the text
`pickSectionText` chooses on the name-sorted members. -/
theorem c8_apache_placeholder :
    (∀ (key : String) (d : LicenseInfo) (rest : List LicenseInfo), key ≠ "Apache-2.0" →
      pickSectionText key (d :: rest) = .ok d.license_text) ∧
    (∀ (deps : List LicenseInfo) (d : LicenseInfo),
      deps.find? (fun d => strContains d.license_text "[yyyy]") = some d →
      pickSectionText "Apache-2.0" deps = .ok d.license_text) ∧
    (∀ deps : List LicenseInfo,
      deps.find? (fun d => strContains d.license_text "[yyyy]") = none →
      pickSectionText "Apache-2.0" deps =
        .error (.rte "Could not find appropriate apache license text")) ∧
    (∀ (groups : List (String × List LicenseInfo)) (key text : String),
      pickSectionText key (List.insertionSort (fun a b => strLe a.name b.name = true)
        ((groups.lookup key).getD [])) = .ok text →
      strContains text "```" = false →
      ∃ lines, sectionLines groups key = .ok lines ∧ text ∈ lines) := by
  refine ⟨?_, ?_, ?_, ?_⟩
  · intro key d rest hne
    have hb : (key != "Apache-2.0") = true := bne_iff_ne.mpr hne
    unfold pickSectionText
    rw [if_pos (by rw [hb, Bool.true_or])]
  · intro deps
    induction deps with
    | nil =>
      intro d h
      exact absurd h (by simp)
    | cons x rest ih =>
      intro d h
      cases hc : strContains x.license_text "[yyyy]" with
      | true =>
        have hfc : (x :: rest).find? (fun d => strContains d.license_text "[yyyy]") =
            some x := List.find?_cons_of_pos _ hc
        rw [hfc] at h
        cases h
        unfold pickSectionText
        rw [if_pos (by rw [hc, Bool.or_true])]
      | false =>
        have hfc : (x :: rest).find? (fun d => strContains d.license_text "[yyyy]") =
            rest.find? (fun d => strContains d.license_text "[yyyy]") :=
          List.find?_cons_of_neg _ (by rw [hc]; simp)
        rw [hfc] at h
        unfold pickSectionText
        rw [if_neg (by rw [hc]; decide)]
        exact ih d h
  · intro deps
    induction deps with
    | nil => intro _; rfl
    | cons x rest ih =>
      intro h
      cases hc : strContains x.license_text "[yyyy]" with
      | true =>
        have hfc : (x :: rest).find? (fun d => strContains d.license_text "[yyyy]") =
            some x := List.find?_cons_of_pos _ hc
        rw [hfc] at h
        exact absurd h (by simp)
      | false =>
        have hfc : (x :: rest).find? (fun d => strContains d.license_text "[yyyy]") =
            rest.find? (fun d => strContains d.license_text "[yyyy]") :=
          List.find?_cons_of_neg _ (by rw [hc]; simp)
        rw [hfc] at h
        unfold pickSectionText
        rw [if_neg (by rw [hc]; decide)]
        exact ih h
  · intro groups key text hpick hbt
    unfold sectionLines sectionRender
    rw [hpick, except_bind_ok]
    simp only [hbt, Bool.false_eq_true, if_false, except_pure_eq, except_bind_ok]
    refine ⟨_, rfl, ?_⟩
    simp

/-- Witness for C8: in a two-member Apache group sorted as
`[apacheRec2, apacheRec]`, the second member's text is the first containing
`[yyyy]` and is the one emitted. -/
theorem c8_apache_placeholder_witness :
    pickSectionText "Apache-2.0"
      [{ name := "b", repository := some "r", license := "Apache-2.0",
         license_text := "Copyright 2019 owner" },
       { name := "a", repository := some "r", license := "Apache-2.0",
         license_text := "Copyright [yyyy] owner" }] = .ok "Copyright [yyyy] owner" :=
  c8_apache_placeholder.2.1
    [{ name := "b", repository := some "r", license := "Apache-2.0",
       license_text := "Copyright 2019 owner" },
     { name := "a", repository := some "r", license := "Apache-2.0",
       license_text := "Copyright [yyyy] owner" }]
    { name := "a", repository := some "r", license := "Apache-2.0",
      license_text := "Copyright [yyyy] owner" }
    (by decide)

/-! ## Claim C4: the stale-fixup check -/

theorem bind_eq_error {ε α β : Type _} {x : Except ε α} {f : α → Except ε β} {e : ε} :
    x >>= f = .error e ↔ x = .error e ∨ ∃ a, x = .ok a ∧ f a = .error e := by
  cases x with
  | error e' =>
    rw [except_bind_error]
    constructor
    · intro h
      injection h with h2
      exact Or.inl (by rw [h2])
    · rintro (h | ⟨a, ha, _⟩)
      · injection h with h2
        rw [h2]
      · exact absurd ha (by simp)
  | ok a =>
    rw [except_bind_ok]
    constructor
    · intro h; exact Or.inr ⟨a, rfl, h⟩
    · rintro (h | ⟨a', ha, hf⟩)
      · exact absurd h (by simp)
      · cases ha; exact hf

theorem foldlM_error_kind {ε α β : Type _} (P : ε → Prop) {step : β → α → Except ε β} :
    ∀ {l : List α}, (∀ acc a, a ∈ l → ∀ e, step acc a = .error e → P e) →
      ∀ (acc : β) (e : ε), l.foldlM step acc = .error e → P e := by
  intro l
  induction l with
  | nil =>
    intro _ acc e h
    exact absurd h (by simp [List.foldlM, except_pure_eq])
  | cons a t ih =>
    intro hstep acc e h
    rw [List.foldlM_cons] at h
    rcases bind_eq_error.mp h with herr | ⟨b, _, hrest⟩
    · exact hstep acc a (by simp) e herr
    · exact ih (fun acc' a' ha' => hstep acc' a' (by simp [ha'])) b e hrest

theorem not_unfx_of_eq {α : Type _} {x e : Err}
    (h : (Except.error x : Except Err α) = Except.error e)
    (hx : x.isUnnecessaryFixups = false) : e.isUnnecessaryFixups = false := by
  injection h with h2
  rw [← h2]
  exact hx

theorem get_package_by_id_err_kind (ws : WorkspaceMetadata) (id : String) (e : Err)
    (h : ws.get_package_by_id id = .error e) : e.isUnnecessaryFixups = false := by
  unfold WorkspaceMetadata.get_package_by_id at h
  cases hlk : ws.pkgInfoById.lookup id with
  | some rec => rw [hlk] at h; exact absurd h (by simp)
  | none => rw [hlk] at h; exact not_unfx_of_eq h rfl

theorem get_package_by_manifest_path_err_kind (ws : WorkspaceMetadata) (p : String)
    (e : Err) (h : ws.get_package_by_manifest_path p = .error e) :
    e.isUnnecessaryFixups = false := by
  unfold WorkspaceMetadata.get_package_by_manifest_path at h
  cases hlk : ws.pkgInfoByManifestPath.lookup p with
  | some rec => rw [hlk] at h; exact absurd h (by simp)
  | none => rw [hlk] at h; exact not_unfx_of_eq h rfl

theorem pick_err_kind (id licenseId : String) (e : Err)
    (h : pick_most_acceptable_license id licenseId = .error e) :
    e.isUnnecessaryFixups = false := by
  unfold pick_most_acceptable_license at h
  cases hf : LICENES_IN_PREFERENCE_ORDER.find?
      (fun license => (parsedLicenses licenseId).contains license) with
  | some l =>
    rw [hf] at h
    replace h : (Except.ok l : Except Err String) = Except.error e := h
    exact absurd h (by simp)
  | none =>
    rw [hf] at h
    replace h : (if "OpenSSL" ∈ parsedLicenses licenseId ∧ id = "ext-openssl" then
        (Except.ok "OpenSSL" : Except Err String)
      else Except.error (Err.rte (pickErrMsg id licenseId))) = Except.error e := h
    rcases ite_eq_iff.mp h with ⟨_, hA⟩ | ⟨_, hB⟩
    · exact absurd hA (by simp)
    · exact not_unfx_of_eq hB rfl

theorem fetch_err_kind (fs : FileSystem) (id license : String) (pkg : PkgRecord)
    (e : Err) (h : fetch_license_text fs id license pkg = .error e) :
    e.isUnnecessaryFixups = false := by
  unfold fetch_license_text at h
  cases hlt : pkg.license_text with
  | some t =>
    rw [hlt] at h
    replace h : (Except.ok t : Except Err String) = Except.error e := h
    exact absurd h (by simp)
  | none =>
    rw [hlt] at h
    cases hlf : pkg.license_file with
    | some lf =>
      rw [hlf] at h
      replace h : (if strStartsWith lf "https://" then
          match fs.httpGet lf with
          | some body => (Except.ok body : Except Err String)
          | none => Except.error (Err.httpError lf)
        else
          match fs.readFile (joinPath (dirname pkg.manifest_path) lf) with
          | some t => Except.ok t
          | none => Except.error (Err.ioError (joinPath (dirname pkg.manifest_path) lf))) =
          Except.error e := h
      rcases ite_eq_iff.mp h with ⟨_, hA⟩ | ⟨_, hB⟩
      · cases hg : fs.httpGet lf with
        | some body =>
          rw [hg] at hA
          replace hA : (Except.ok body : Except Err String) = Except.error e := hA
          exact absurd hA (by simp)
        | none =>
          rw [hg] at hA
          exact not_unfx_of_eq
            (show (Except.error (Err.httpError lf) : Except Err String) =
              Except.error e from hA) rfl
      · cases hr : fs.readFile (joinPath (dirname pkg.manifest_path) lf) with
        | some t =>
          rw [hr] at hB
          replace hB : (Except.ok t : Except Err String) = Except.error e := hB
          exact absurd hB (by simp)
        | none =>
          rw [hr] at hB
          exact not_unfx_of_eq
            (show (Except.error (Err.ioError (joinPath (dirname pkg.manifest_path) lf)) :
              Except Err String) = Except.error e from hB) rfl
    | none =>
      rw [hlf] at h
      replace h : (match (fs.listDir (dirname pkg.manifest_path)).filter (fun nm =>
          ((COMMON_LICENSE_FILE_NAMES license).getD
            ((COMMON_LICENSE_FILE_NAMES "").getD [])).contains (lowerStr nm)) with
        | [nm] =>
          match fs.readFile (joinPath (dirname pkg.manifest_path) nm) with
          | some t => (Except.ok t : Except Err String)
          | none => Except.error (Err.ioError (joinPath (dirname pkg.manifest_path) nm))
        | found =>
          if found.length > 1 then
            Except.error (Err.rte (multiLicenseFilesMsg pkg.name found))
          else
            Except.error (Err.rte (noLicenseFileMsg pkg.name pkg.repository))) =
          Except.error e := h
      cases hfl : (fs.listDir (dirname pkg.manifest_path)).filter (fun nm =>
          ((COMMON_LICENSE_FILE_NAMES license).getD
            ((COMMON_LICENSE_FILE_NAMES "").getD [])).contains (lowerStr nm)) with
      | nil =>
        rw [hfl] at h
        exact not_unfx_of_eq
          (show (Except.error (Err.rte (noLicenseFileMsg pkg.name pkg.repository)) :
            Except Err String) = Except.error e from h) rfl
      | cons nm rest =>
        rw [hfl] at h
        cases rest with
        | nil =>
          replace h : (match fs.readFile (joinPath (dirname pkg.manifest_path) nm) with
            | some t => (Except.ok t : Except Err String)
            | none => Except.error (Err.ioError (joinPath (dirname pkg.manifest_path) nm))) =
              Except.error e := h
          cases hr : fs.readFile (joinPath (dirname pkg.manifest_path) nm) with
          | some t =>
            rw [hr] at h
            replace h : (Except.ok t : Except Err String) = Except.error e := h
            exact absurd h (by simp)
          | none =>
            rw [hr] at h
            exact not_unfx_of_eq
              (show (Except.error (Err.ioError (joinPath (dirname pkg.manifest_path) nm)) :
                Except Err String) = Except.error e from h) rfl
        | cons nm2 rest2 =>
          replace h : (if (nm :: nm2 :: rest2).length > 1 then
              (Except.error (Err.rte (multiLicenseFilesMsg pkg.name (nm :: nm2 :: rest2))) :
                Except Err String)
            else
              Except.error (Err.rte (noLicenseFileMsg pkg.name pkg.repository))) =
              Except.error e := h
          rw [if_pos (by simp [List.length_cons])] at h
          exact not_unfx_of_eq h rfl

theorem is_external_err_kind (ws : WorkspaceMetadata) (id : String) (e : Err)
    (h : ws.is_external_dependency id = .error e) : e.isUnnecessaryFixups = false := by
  unfold WorkspaceMetadata.is_external_dependency at h
  rcases bind_eq_error.mp h with h1 | ⟨pkg, _, h2⟩
  · exact get_package_by_id_err_kind ws id e h1
  · cases hsrc : pkg.source with
    | none =>
      rw [hsrc] at h2
      replace h2 : (Except.ok true : Except Err Bool) = Except.error e := h2
      exact absurd h2 (by simp)
    | some inner =>
      cases inner with
      | none =>
        rw [hsrc] at h2
        replace h2 : (if String.mk (commonPrefixOf pkg.manifest_path.data
              ws.metadata.workspace_root.data) ≠ ws.metadata.workspace_root then
            (Except.ok true : Except Err Bool)
          else Except.ok false) = Except.error e := h2
        rcases ite_eq_iff.mp h2 with ⟨_, hh⟩ | ⟨_, hh⟩ <;> exact absurd hh (by simp)
      | some s =>
        rw [hsrc] at h2
        replace h2 : (Except.ok true : Except Err Bool) = Except.error e := h2
        exact absurd h2 (by simp)

theorem get_license_info_err_kind (ws : WorkspaceMetadata) (fs : FileSystem)
    (id : String) (e : Err) (h : ws.get_license_info fs id = .error e) :
    e.isUnnecessaryFixups = false := by
  unfold WorkspaceMetadata.get_license_info at h
  rcases bind_eq_error.mp h with h1 | ⟨pkg, _, h2⟩
  · exact get_package_by_id_err_kind ws id e h1
  cases hl : pkg.license with
  | some licenseId =>
    rw [hl] at h2
    replace h2 : (pick_most_acceptable_license id licenseId >>= fun chosenLicense =>
        fetch_license_text fs id chosenLicense pkg >>= fun text =>
          pure ({ name := pkg.name, repository := pkg.repository,
                  license := chosenLicense, license_text := text } : LicenseInfo)) =
        Except.error e := h2
    rcases bind_eq_error.mp h2 with h3 | ⟨lic, _, h4⟩
    · exact pick_err_kind id licenseId e h3
    rcases bind_eq_error.mp h4 with h5 | ⟨text, _, h6⟩
    · exact fetch_err_kind fs id lic pkg e h5
    · exact absurd h6 (by simp [except_pure_eq])
  | none =>
    rw [hl] at h2
    replace h2 : (Except.error (Err.typeError "expected string or bytes-like object") :
        Except Err LicenseInfo) = Except.error e := h2
    exact not_unfx_of_eq h2 rfl

theorem yield_fold_err_kind (ws : WorkspaceMetadata) (fs : FileSystem)
    (deps : List String) (acc : List LicenseInfo) (e : Err)
    (h : (deps.foldlM (fun acc id => do
      let ext ← ws.is_external_dependency id
      if ext then do
        let info ← ws.get_license_info fs id
        pure (acc ++ [info])
      else
        pure acc) acc) = .error e) : e.isUnnecessaryFixups = false := by
  refine foldlM_error_kind (fun e => e.isUnnecessaryFixups = false) ?_ acc e h
  intro acc' id _ e' hstep
  rcases bind_eq_error.mp hstep with h1 | ⟨ext, _, h2⟩
  · exact is_external_err_kind ws id e' h1
  · cases ext with
    | true =>
      rw [if_pos rfl] at h2
      rcases bind_eq_error.mp h2 with h3 | ⟨info, _, h4⟩
      · exact get_license_info_err_kind ws fs id e' h3
      · exact absurd h4 (by simp [except_pure_eq])
    | false =>
      rw [if_neg (by exact Bool.false_ne_true)] at h2
      exact absurd h2 (by simp [except_pure_eq])

theorem compatible_core_err_kind (ws : WorkspaceMetadata) (id : String)
    (req : List String) (e : Err)
    (h : (ws.get_package_by_id id >>= fun pkgInfo =>
      (pure (pkgInfo.targets.foldl (fun ts buildTarget =>
        if buildTarget.kind.contains "cdylib" then
          ts.filter (fun target => !(target_is_ios target))
        else ts) req) : Except Err (List String))) = Except.error e) :
    e.isUnnecessaryFixups = false := by
  rcases bind_eq_error.mp h with h3 | ⟨pkg, _, h4⟩
  · exact get_package_by_id_err_kind ws id e h3
  · exact absurd h4 (by simp [except_pure_eq])

theorem get_compatible_err_kind (ws : WorkspaceMetadata) (name : String)
    (targets : Option (List String)) (e : Err)
    (h : ws.get_compatible_targets_for_package name targets = .error e) :
    e.isUnnecessaryFixups = false := by
  unfold WorkspaceMetadata.get_compatible_targets_for_package at h
  cases targets with
  | none =>
    cases hlk : ws.workspaceMembersByName.lookup name with
    | none =>
      rw [hlk] at h
      replace h : (Except.error (Err.keyError name) : Except Err (List String)) =
          Except.error e := h
      exact not_unfx_of_eq h rfl
    | some id =>
      rw [hlk] at h
      exact compatible_core_err_kind ws id ALL_TARGETS e h
  | some ts =>
    cases ts with
    | nil =>
      cases hlk : ws.workspaceMembersByName.lookup name with
      | none =>
        rw [hlk] at h
        replace h : (Except.error (Err.keyError name) : Except Err (List String)) =
            Except.error e := h
        exact not_unfx_of_eq h rfl
      | some id =>
        rw [hlk] at h
        exact compatible_core_err_kind ws id ALL_TARGETS e h
    | cons t rest =>
      cases hlk : ws.workspaceMembersByName.lookup name with
      | none =>
        rw [hlk] at h
        replace h : (Except.error (Err.keyError name) : Except Err (List String)) =
            Except.error e := h
        exact not_unfx_of_eq h rfl
      | some id =>
        rw [hlk] at h
        exact compatible_core_err_kind ws id (t :: rest) e h

theorem get_extra_err_kind (ws : WorkspaceMetadata) (name : String)
    (targets deps : List String) (e : Err)
    (h : ws.get_extra_dependencies_not_managed_by_cargo name targets deps = .error e) :
    e.isUnnecessaryFixups = false := by
  unfold WorkspaceMetadata.get_extra_dependencies_not_managed_by_cargo at h
  refine foldlM_error_kind (fun e => e.isUnnecessaryFixups = false) ?_ _ e h
  intro acc id _ e' hstep
  rcases bind_eq_error.mp hstep with h1 | ⟨pkg, _, h2⟩
  · exact get_package_by_id_err_kind ws id e' h1
  · cases hlk : PACKAGES_WITH_EXTRA_DEPENDENCIES.lookup pkg.name with
    | some more =>
      rw [hlk] at h2
      replace h2 : (Except.ok (unionSet acc more) : Except Err (List String)) =
          Except.error e' := h2
      exact absurd h2 (by simp)
    | none =>
      rw [hlk] at h2
      replace h2 : (Except.ok acc : Except Err (List String)) = Except.error e' := h2
      exact absurd h2 (by simp)

theorem get_package_dependencies_err_kind (ws : WorkspaceMetadata) (bp : BuildPlans)
    (name : String) (targets : Option (List String)) (e : Err)
    (h : ws.get_package_dependencies bp name targets = .error e) :
    e.isUnnecessaryFixups = false := by
  unfold WorkspaceMetadata.get_package_dependencies at h
  rcases bind_eq_error.mp h with h1 | ⟨compatible, _, h2⟩
  · exact get_compatible_err_kind ws name targets e h1
  rcases bind_eq_error.mp h2 with h3 | ⟨deps, _, h4⟩
  · refine foldlM_error_kind (fun e => e.isUnnecessaryFixups = false) ?_ _ e h3
    intro acc t _ e' hstep
    refine foldlM_error_kind (fun e => e.isUnnecessaryFixups = false) ?_ _ e' hstep
    intro acc' mp _ e'' hstep'
    rcases bind_eq_error.mp hstep' with h5 | ⟨info, _, h6⟩
    · exact get_package_by_manifest_path_err_kind ws mp e'' h5
    · exact absurd h6 (by simp [except_pure_eq])
  rcases bind_eq_error.mp h4 with h5 | ⟨extras, _, h6⟩
  · exact get_extra_err_kind ws name compatible deps e h5
  · exact absurd h6 (by simp [except_pure_eq])

/-- C4: a full-workspace query (no package name) raises the
`unnecessary fixups` error exactly when some fixup-table package name is
missing from the combined closure's names — with the error listing exactly
the missing names — and when no name is missing, whatever error the run may
still produce is never of that kind; a query naming a specific package
never produces the unnecessary-fixups error at all. -/
theorem c4_unused_fixups (ws : WorkspaceMetadata) (bp : BuildPlans) (fs : FileSystem)
    (targets : Option (List String)) :
    (∀ deps allDepNames : List String,
      (ws.workspaceMembersByName.foldlM (fun deps p => do
        let more ← ws.get_package_dependencies bp p.1 targets
        pure (unionSet deps more)) ([] : List String)) = .ok deps →
      (deps.mapM (fun dep => do
        let info ← ws.get_package_by_id dep
        pure info.name)) = .ok allDepNames →
      ((∃ fname ∈ PACKAGE_METADATA_FIXUPS.map Prod.fst, fname ∉ allDepNames) →
        ws.get_dependency_summary bp fs none targets =
          .error (.unnecessaryFixups ((PACKAGE_METADATA_FIXUPS.map Prod.fst).filter
            (fun dep => !(allDepNames.contains dep))))) ∧
      ((¬ ∃ fname ∈ PACKAGE_METADATA_FIXUPS.map Prod.fst, fname ∉ allDepNames) →
        ∀ e, ws.get_dependency_summary bp fs none targets = .error e →
          e.isUnnecessaryFixups = false)) ∧
    (∀ (n : String) (e : Err),
      ws.get_dependency_summary bp fs (some n) targets = .error e →
      e.isUnnecessaryFixups = false) := by
  constructor
  · intro deps allDepNames hclosure hnames
    have hsum : ws.get_dependency_summary bp fs none targets =
        ((if ((PACKAGE_METADATA_FIXUPS.map Prod.fst).filter
            (fun dep => !(allDepNames.contains dep))) ≠ [] then
          throw (Err.unnecessaryFixups ((PACKAGE_METADATA_FIXUPS.map Prod.fst).filter
            (fun dep => !(allDepNames.contains dep))))
        else pure ()) >>= fun _ =>
          (deps.foldlM (fun acc id => do
            let ext ← ws.is_external_dependency id
            if ext then do
              let info ← ws.get_license_info fs id
              pure (acc ++ [info])
            else
              pure acc) ([] : List LicenseInfo))) := by
      unfold WorkspaceMetadata.get_dependency_summary
      simp only [except_pure_eq] at hclosure hnames
      simp only [hclosure, hnames, except_bind_ok, except_pure_eq, except_throw_eq,
        except_bind_error]
      by_cases hne : ((PACKAGE_METADATA_FIXUPS.map Prod.fst).filter
          (fun dep => !(allDepNames.contains dep))) ≠ []
      · rw [if_pos hne, if_pos hne, except_bind_error]
      · rw [if_neg hne, if_neg hne, except_bind_ok]
    constructor
    · intro hex
      have hne : ((PACKAGE_METADATA_FIXUPS.map Prod.fst).filter
          (fun dep => !(allDepNames.contains dep))) ≠ [] := by
        obtain ⟨fname, hmem, hnot⟩ := hex
        intro hnil
        have : fname ∈ (PACKAGE_METADATA_FIXUPS.map Prod.fst).filter
            (fun dep => !(allDepNames.contains dep)) := by
          rw [List.mem_filter]
          refine ⟨hmem, ?_⟩
          rw [Bool.not_eq_true']
          rw [← Bool.not_eq_true]
          intro hc
          exact hnot ((contains_iff_mem _ _).mp hc)
        rw [hnil] at this
        exact absurd this (by simp)
      rw [hsum, if_pos hne, except_throw_eq, except_bind_error]
    · intro hnex e herr
      have hnil : ((PACKAGE_METADATA_FIXUPS.map Prod.fst).filter
          (fun dep => !(allDepNames.contains dep))) = [] := by
        rw [List.filter_eq_nil_iff]
        intro fname hmem hc
        rw [Bool.not_eq_true'] at hc
        by_cases hin : fname ∈ allDepNames
        · exact absurd ((contains_iff_mem _ _).mpr hin) (by rw [hc]; exact Bool.false_ne_true)
        · exact hnex ⟨fname, hmem, hin⟩
      rw [hsum, if_neg (by rw [hnil]; simp), except_pure_eq, except_bind_ok] at herr
      exact yield_fold_err_kind ws fs deps [] e herr
  · intro n e herr
    unfold WorkspaceMetadata.get_dependency_summary at herr
    rcases bind_eq_error.mp herr with h1 | ⟨deps, _, h2⟩
    · exact get_package_dependencies_err_kind ws bp n targets e h1
    · exact yield_fold_err_kind ws fs deps [] e h2

/-- Witness for C4: over the empty workspace every fixup-table name is
missing from the (empty) closure, and the full-workspace query raises the
unnecessary-fixups error listing all of them. -/
theorem c4_unused_fixups_witness :
    wsEmpty.get_dependency_summary trivialBp trivialFs none none =
      .error (.unnecessaryFixups ((PACKAGE_METADATA_FIXUPS.map Prod.fst).filter
        (fun dep => !(([] : List String).contains dep)))) :=
  ((c4_unused_fixups wsEmpty trivialBp trivialFs none).1 [] [] rfl rfl).1
    ⟨"ring", by decide, by decide⟩

/-! ## Order properties of the Python comparison relations -/

theorem lexLt_irrefl [DecidableEq α] {lt : α → α → Bool} (hirr : ∀ a, lt a a = false) :
    ∀ l, lexLt lt l l = false := by
  intro l
  induction l with
  | nil => rfl
  | cons a t ih => simp [lexLt, hirr a, ih]

theorem lexLt_trans [DecidableEq α] {lt : α → α → Bool}
    (htrans : ∀ a b c, lt a b = true → lt b c = true → lt a c = true) :
    ∀ l1 l2 l3, lexLt lt l1 l2 = true → lexLt lt l2 l3 = true → lexLt lt l1 l3 = true := by
  intro l1
  induction l1 with
  | nil =>
    intro l2 l3 h1 h2
    cases l2 with
    | nil => exact absurd h1 (by simp [lexLt])
    | cons b bs =>
      cases l3 with
      | nil => exact absurd h2 (by simp [lexLt])
      | cons c cs => simp [lexLt]
  | cons a as ih =>
    intro l2 l3 h1 h2
    cases l2 with
    | nil => exact absurd h1 (by simp [lexLt])
    | cons b bs =>
      cases l3 with
      | nil => exact absurd h2 (by simp [lexLt])
      | cons c cs =>
        replace h1 : (if lt a b = true then true
            else if a = b then lexLt lt as bs else false) = true := h1
        replace h2 : (if lt b c = true then true
            else if b = c then lexLt lt bs cs else false) = true := h2
        show (if lt a c = true then true
            else if a = c then lexLt lt as cs else false) = true
        rcases ite_eq_iff.mp h1 with ⟨hab, _⟩ | ⟨hab, h1c⟩
        · rcases ite_eq_iff.mp h2 with ⟨hbc, _⟩ | ⟨hbc, h2c⟩
          · rw [if_pos (htrans a b c hab hbc)]
          · rcases ite_eq_iff.mp h2c with ⟨heq, _⟩ | ⟨_, hff⟩
            · subst heq; rw [if_pos hab]
            · exact absurd hff (by simp)
        · rcases ite_eq_iff.mp h1c with ⟨heq, h1d⟩ | ⟨_, hff⟩
          · subst heq
            rcases ite_eq_iff.mp h2 with ⟨hac, _⟩ | ⟨hac, h2c⟩
            · rw [if_pos hac]
            · rcases ite_eq_iff.mp h2c with ⟨heq2, h2d⟩ | ⟨_, hff⟩
              · rw [if_neg hac, if_pos heq2]
                exact ih bs cs h1d h2d
              · exact absurd hff (by simp)
          · exact absurd hff (by simp)

theorem lexLt_conn [DecidableEq α] {lt : α → α → Bool}
    (hconn : ∀ a b, lt a b = false → lt b a = false → a = b) :
    ∀ l1 l2, lexLt lt l1 l2 = false → lexLt lt l2 l1 = false → l1 = l2 := by
  intro l1
  induction l1 with
  | nil =>
    intro l2 h1 _
    cases l2 with
    | nil => rfl
    | cons b bs => exact absurd h1 (by simp [lexLt])
  | cons a as ih =>
    intro l2 h1 h2
    cases l2 with
    | nil => exact absurd h2 (by simp [lexLt])
    | cons b bs =>
      replace h1 : (if lt a b = true then true
          else if a = b then lexLt lt as bs else false) = false := h1
      replace h2 : (if lt b a = true then true
          else if b = a then lexLt lt bs as else false) = false := h2
      rcases ite_eq_iff.mp h1 with ⟨_, htt⟩ | ⟨hab, h1c⟩
      · exact absurd htt (by simp)
      rcases ite_eq_iff.mp h2 with ⟨_, htt⟩ | ⟨hba, h2c⟩
      · exact absurd htt (by simp)
      have heq : a = b :=
        hconn a b (Bool.not_eq_true _ ▸ eq_false_of_ne_true hab)
          (Bool.not_eq_true _ ▸ eq_false_of_ne_true hba)
      subst heq
      rw [if_pos rfl] at h1c h2c
      rw [ih bs h1c h2c]

theorem charLt_irrefl (a : Char) : charLt a a = false := by
  simp [charLt]

theorem charLt_trans (a b c : Char) (h1 : charLt a b = true) (h2 : charLt b c = true) :
    charLt a c = true := by
  simp [charLt] at h1 h2 ⊢
  omega

theorem charLt_conn (a b : Char) (h1 : charLt a b = false) (h2 : charLt b a = false) :
    a = b := by
  simp [charLt] at h1 h2
  have hn : a.toNat = b.toNat := by omega
  exact Char.ext (UInt32.ext hn)

theorem strLt_irrefl (a : String) : strLt a a = false :=
  lexLt_irrefl charLt_irrefl a.data

theorem strLt_trans (a b c : String) (h1 : strLt a b = true) (h2 : strLt b c = true) :
    strLt a c = true :=
  lexLt_trans charLt_trans a.data b.data c.data h1 h2

theorem strLt_conn (a b : String) (h1 : strLt a b = false) (h2 : strLt b a = false) :
    a = b := by
  have h := lexLt_conn charLt_conn a.data b.data h1 h2
  cases a with
  | mk da =>
    cases b with
    | mk db => exact congrArg String.mk h

theorem strLe_total (a b : String) : strLe a b = true ∨ strLe b a = true := by
  unfold strLe
  cases hab : strLt b a with
  | false => left; rfl
  | true =>
    cases hba : strLt a b with
    | false => right; rfl
    | true =>
      have := strLt_trans a b a hba hab
      rw [strLt_irrefl] at this
      exact absurd this (by simp)

theorem strLe_trans (a b c : String) (h1 : strLe a b = true) (h2 : strLe b c = true) :
    strLe a c = true := by
  unfold strLe at h1 h2 ⊢
  rw [Bool.not_eq_true'] at h1 h2
  rw [Bool.not_eq_true']
  cases hca : strLt c a with
  | false => rfl
  | true =>
    cases hbc : strLt b c with
    | true =>
      have := strLt_trans b c a hbc hca
      rw [this] at h1
      exact h1
    | false =>
      have heq : b = c := strLt_conn b c hbc h2
      subst heq
      rw [hca] at h1
      exact h1

theorem strLe_antisymm (a b : String) (h1 : strLe a b = true) (h2 : strLe b a = true) :
    a = b := by
  unfold strLe at h1 h2
  rw [Bool.not_eq_true'] at h1 h2
  exact strLt_conn a b h2 h1

theorem strListLt_irrefl (l : List String) : strListLt l l = false :=
  lexLt_irrefl strLt_irrefl l

theorem strListLt_trans (a b c : List String) (h1 : strListLt a b = true)
    (h2 : strListLt b c = true) : strListLt a c = true :=
  lexLt_trans strLt_trans a b c h1 h2

theorem strListLt_conn (a b : List String) (h1 : strListLt a b = false)
    (h2 : strListLt b a = false) : a = b :=
  lexLt_conn strLt_conn a b h1 h2

theorem sortKeyLt_irrefl (a : Nat × List String) : sortKeyLt a a = false := by
  unfold sortKeyLt
  simp [strListLt_irrefl]

theorem sortKeyLt_trans (a b c : Nat × List String) (h1 : sortKeyLt a b = true)
    (h2 : sortKeyLt b c = true) : sortKeyLt a c = true := by
  unfold sortKeyLt at h1 h2 ⊢
  rcases ite_eq_iff.mp h1 with ⟨hab, _⟩ | ⟨hab, h1c⟩
  · rcases ite_eq_iff.mp h2 with ⟨hbc, _⟩ | ⟨hbc, h2c⟩
    · rw [if_pos (Nat.lt_trans hab hbc)]
    · rcases ite_eq_iff.mp h2c with ⟨heq, _⟩ | ⟨_, hff⟩
      · rw [if_pos (heq ▸ hab)]
      · exact absurd hff (by simp)
  · rcases ite_eq_iff.mp h1c with ⟨heq, h1d⟩ | ⟨_, hff⟩
    · rcases ite_eq_iff.mp h2 with ⟨hbc, _⟩ | ⟨hbc, h2c⟩
      · rw [if_pos (heq ▸ hbc)]
      · rcases ite_eq_iff.mp h2c with ⟨heq2, h2d⟩ | ⟨_, hff⟩
        · rw [if_neg (by omega), if_pos (heq.trans heq2)]
          exact strListLt_trans _ _ _ h1d h2d
        · exact absurd hff (by simp)
    · exact absurd hff (by simp)

theorem sortKeyLt_conn (a b : Nat × List String) (h1 : sortKeyLt a b = false)
    (h2 : sortKeyLt b a = false) : a = b := by
  unfold sortKeyLt at h1 h2
  rcases ite_eq_iff.mp h1 with ⟨_, htt⟩ | ⟨hab, h1c⟩
  · exact absurd htt (by simp)
  rcases ite_eq_iff.mp h2 with ⟨_, htt⟩ | ⟨hba, h2c⟩
  · exact absurd htt (by simp)
  have heq : a.1 = b.1 := by omega
  rw [if_pos heq] at h1c
  rw [if_pos heq.symm] at h2c
  have := strListLt_conn a.2 b.2 h1c h2c
  exact Prod.ext heq this

theorem sortKeyLe_total (a b : Nat × List String) :
    sortKeyLe a b = true ∨ sortKeyLe b a = true := by
  unfold sortKeyLe
  cases hab : sortKeyLt b a with
  | false => left; rfl
  | true =>
    cases hba : sortKeyLt a b with
    | false => right; rfl
    | true =>
      have := sortKeyLt_trans a b a hba hab
      rw [sortKeyLt_irrefl] at this
      exact absurd this (by simp)

theorem sortKeyLe_trans (a b c : Nat × List String) (h1 : sortKeyLe a b = true)
    (h2 : sortKeyLe b c = true) : sortKeyLe a c = true := by
  unfold sortKeyLe at h1 h2 ⊢
  rw [Bool.not_eq_true'] at h1 h2
  rw [Bool.not_eq_true']
  cases hca : sortKeyLt c a with
  | false => rfl
  | true =>
    cases hbc : sortKeyLt b c with
    | true =>
      have := sortKeyLt_trans b c a hbc hca
      rw [this] at h1
      exact h1
    | false =>
      have heq : b = c := sortKeyLt_conn b c hbc h2
      subst heq
      rw [hca] at h1
      exact h1

theorem sortKeyLe_antisymm (a b : Nat × List String) (h1 : sortKeyLe a b = true)
    (h2 : sortKeyLe b a = true) : a = b := by
  unfold sortKeyLe at h1 h2
  rw [Bool.not_eq_true'] at h1 h2
  exact sortKeyLt_conn a b h2 h1

instance : IsTotal String (fun a b => strLe a b = true) :=
  ⟨strLe_total⟩

instance : IsTrans String (fun a b => strLe a b = true) :=
  ⟨strLe_trans⟩

instance : IsAntisymm String (fun a b => strLe a b = true) :=
  ⟨strLe_antisymm⟩

instance : IsTotal LicenseInfo (fun a b => strLe a.name b.name = true) :=
  ⟨fun a b => strLe_total a.name b.name⟩

instance : IsTrans LicenseInfo (fun a b => strLe a.name b.name = true) :=
  ⟨fun a b c => strLe_trans a.name b.name c.name⟩

instance (groups : List (String × List LicenseInfo)) :
    IsTotal String (fun a b => sortKeyLe (sort_key groups a) (sort_key groups b) = true) :=
  ⟨fun a b => sortKeyLe_total _ _⟩

instance (groups : List (String × List LicenseInfo)) :
    IsTrans String (fun a b => sortKeyLe (sort_key groups a) (sort_key groups b) = true) :=
  ⟨fun a b c => sortKeyLe_trans _ _ _⟩

/-! ## Grouping lemmas for depsByLicenseTextHash -/

theorem lookup_addToGroup (k : String) (i : LicenseInfo) :
    ∀ (acc : List (String × List LicenseInfo)) (key : String),
      (addToGroup k i acc).lookup key =
        if key = k then some (((acc.lookup k).getD []) ++ [i]) else acc.lookup key := by
  intro acc
  induction acc with
  | nil =>
    intro key
    by_cases hkey : key = k
    · simp [addToGroup, List.lookup, hkey]
    · simp [addToGroup, List.lookup, hkey, beq_eq_false_iff_ne.mpr hkey]
  | cons p rest ih =>
    intro key
    obtain ⟨q, g⟩ := p
    show (if q = k then (q, g ++ [i]) :: rest else (q, g) :: addToGroup k i rest).lookup key =
      if key = k then some ((((q, g) :: rest).lookup k).getD [] ++ [i])
      else ((q, g) :: rest).lookup key
    by_cases hq : q = k
    · rw [if_pos hq]
      by_cases hkey : key = k
      · simp [List.lookup, hq, hkey]
      · simp [List.lookup, hq, hkey, beq_eq_false_iff_ne.mpr hkey]
    · rw [if_neg hq]
      by_cases hkey : key = k
      · simp [List.lookup, hkey,
          beq_eq_false_iff_ne.mpr (show k ≠ q from fun h => hq h.symm), ih k]
      · by_cases hkq : key = q
        · simp [List.lookup, hkq, hkey, hq]
        · simp [List.lookup, beq_eq_false_iff_ne.mpr hkq, hkey, ih key]

theorem keys_addToGroup (k : String) (i : LicenseInfo) :
    ∀ acc : List (String × List LicenseInfo),
      (addToGroup k i acc).map Prod.fst =
        if (acc.lookup k).isSome then acc.map Prod.fst else acc.map Prod.fst ++ [k] := by
  intro acc
  induction acc with
  | nil => simp [addToGroup, List.lookup]
  | cons p rest ih =>
    obtain ⟨q, g⟩ := p
    show (if q = k then (q, g ++ [i]) :: rest else (q, g) :: addToGroup k i rest).map
        Prod.fst = _
    by_cases hq : q = k
    · subst hq
      simp [List.lookup]
    · rw [if_neg hq]
      simp only [List.map_cons, ih, List.lookup, beq_eq_false_iff_ne.mpr (Ne.symm hq)]
      cases h : (rest.lookup k).isSome <;> simp [h]

theorem lookup_isSome_iff_mem_keys {β : Type _} :
    ∀ (l : List (String × β)) (a : String),
      (l.lookup a).isSome = true ↔ a ∈ l.map Prod.fst := by
  intro l
  induction l with
  | nil => intro a; simp [List.lookup]
  | cons p rest ih =>
    intro a
    obtain ⟨q, b⟩ := p
    by_cases hq : a = q
    · subst hq; simp [List.lookup]
    · simp [List.lookup, beq_eq_false_iff_ne.mpr hq, hq, ih a]

theorem fold_groups_lookup :
    ∀ (deps : List LicenseInfo) (acc : List (String × List LicenseInfo)) (key : String),
      ((deps.foldl (fun acc info => addToGroup (licenseTextHashOf info) info acc)
          acc).lookup key) =
        match acc.lookup key with
        | some g => some (g ++ deps.filter (fun i => licenseTextHashOf i == key))
        | none =>
          if deps.any (fun i => licenseTextHashOf i == key) then
            some (deps.filter (fun i => licenseTextHashOf i == key))
          else none := by
  intro deps
  induction deps with
  | nil =>
    intro acc key
    cases h : acc.lookup key <;> simp [h]
  | cons i ds ih =>
    intro acc key
    rw [List.foldl_cons, ih, lookup_addToGroup]
    by_cases hk : key = licenseTextHashOf i
    · subst hk
      rw [if_pos rfl]
      cases hacc : acc.lookup (licenseTextHashOf i) with
      | some g => simp [hacc]
      | none => simp [hacc]
    · rw [if_neg hk]
      have hne : (licenseTextHashOf i == key) = false := beq_eq_false_iff_ne.mpr (Ne.symm hk)
      cases hacc : acc.lookup key with
      | some g => simp [hacc, List.filter_cons, hne]
      | none => simp [hacc, List.filter_cons, List.any_cons, hne]

theorem fold_groups_keys_nodup :
    ∀ (deps : List LicenseInfo) (acc : List (String × List LicenseInfo)),
      ((acc.map Prod.fst).Nodup) →
      (((deps.foldl (fun acc info => addToGroup (licenseTextHashOf info) info acc)
          acc).map Prod.fst).Nodup) := by
  intro deps
  induction deps with
  | nil => intro acc h; exact h
  | cons i ds ih =>
    intro acc h
    rw [List.foldl_cons]
    apply ih
    rw [keys_addToGroup]
    cases hs : (acc.lookup (licenseTextHashOf i)).isSome with
    | true => rw [if_pos rfl]; exact h
    | false =>
      rw [if_neg (by simp)]
      have hnot : licenseTextHashOf i ∉ acc.map Prod.fst := by
        intro hmem
        rw [← lookup_isSome_iff_mem_keys] at hmem
        rw [hs] at hmem
        exact absurd hmem (by simp)
      simp [List.nodup_append, h, hnot]


theorem groups_lookup_getD (deps : List LicenseInfo) (key : String) :
    ((depsByLicenseTextHash deps).lookup key).getD [] =
      deps.filter (fun i => licenseTextHashOf i == key) := by
  unfold depsByLicenseTextHash
  rw [fold_groups_lookup deps [] key]
  show (match (none : Option (List LicenseInfo)) with
    | some g => some (g ++ deps.filter (fun i => licenseTextHashOf i == key))
    | none =>
      if deps.any (fun i => licenseTextHashOf i == key) then
        some (deps.filter (fun i => licenseTextHashOf i == key))
      else none).getD [] = _
  cases hany : deps.any (fun i => licenseTextHashOf i == key) with
  | true => simp [hany]
  | false =>
    have hnil : deps.filter (fun i => licenseTextHashOf i == key) = [] := by
      rw [List.filter_eq_nil_iff]
      intro a ha hc
      have hx : deps.any (fun i => licenseTextHashOf i == key) = true :=
        List.any_eq_true.mpr ⟨a, ha, hc⟩
      rw [hany] at hx
      exact absurd hx (by simp)
    simp [hany, hnil]

theorem groups_keys_nodup (deps : List LicenseInfo) :
    ((depsByLicenseTextHash deps).map Prod.fst).Nodup :=
  fold_groups_keys_nodup deps [] (by simp)

theorem groups_keys_mem_iff (deps : List LicenseInfo) (key : String) :
    key ∈ (depsByLicenseTextHash deps).map Prod.fst ↔
      ∃ i ∈ deps, licenseTextHashOf i = key := by
  rw [← lookup_isSome_iff_mem_keys]
  unfold depsByLicenseTextHash
  rw [fold_groups_lookup deps [] key]
  show (match (none : Option (List LicenseInfo)) with
    | some g => some (g ++ deps.filter (fun i => licenseTextHashOf i == key))
    | none =>
      if deps.any (fun i => licenseTextHashOf i == key) then
        some (deps.filter (fun i => licenseTextHashOf i == key))
      else none).isSome = true ↔ _
  cases hany : deps.any (fun i => licenseTextHashOf i == key) with
  | true =>
    simp only [hany, if_true]
    constructor
    · intro _
      rcases List.any_eq_true.mp hany with ⟨i, hi, hk⟩
      exact ⟨i, hi, beq_iff_eq.mp hk⟩
    · intro _; rfl
  | false =>
    simp only [hany, Bool.false_eq_true, if_false]
    constructor
    · intro hc; exact absurd hc (by simp)
    · intro ⟨i, hi, hk⟩
      have : deps.any (fun i => licenseTextHashOf i == key) = true :=
        List.any_eq_true.mpr ⟨i, hi, beq_iff_eq.mpr hk⟩
      rw [hany] at this
      exact absurd this (by simp)

theorem sorted_perm_keyed_eq {α κ : Type _} (key : α → κ) (le : κ → κ → Bool)
    (hanti : ∀ x y, le x y = true → le y x = true → x = y) :
    ∀ (l l' : List α), l.Perm l' → (l.map key).Nodup →
      l.Pairwise (fun a b => le (key a) (key b) = true) →
      l'.Pairwise (fun a b => le (key a) (key b) = true) → l = l' := by
  intro l
  induction l with
  | nil =>
    intro l' hp _ _ _
    exact hp.nil_eq
  | cons a t ih =>
    intro l' hp hnd hs hs'
    cases l' with
    | nil => exact absurd hp (by simp)
    | cons b t' =>
      have hab : a = b := by
        have hbmem : b ∈ a :: t := hp.symm.subset (by simp)
        have hamem : a ∈ b :: t' := hp.subset (by simp)
        rcases List.mem_cons.mp hbmem with hb | hb
        · exact hb.symm
        rcases List.mem_cons.mp hamem with ha | ha
        · exact ha
        have h1 : le (key a) (key b) = true := (List.pairwise_cons.mp hs).1 b hb
        have h2 : le (key b) (key a) = true := (List.pairwise_cons.mp hs').1 a ha
        have hk : key a = key b := hanti _ _ h1 h2
        have hmemk : key b ∈ t.map key := List.mem_map_of_mem key hb
        rw [← hk] at hmemk
        have hnotin : key a ∉ t.map key := (List.nodup_cons.mp (by simpa using hnd)).1
        exact absurd hmemk hnotin
      subst hab
      have hpt : t.Perm t' := hp.cons_inv
      have hndt : (t.map key).Nodup := (List.nodup_cons.mp (by simpa using hnd)).2
      rw [ih t' hpt hndt (List.pairwise_cons.mp hs).2 (List.pairwise_cons.mp hs').2]

theorem groupNames_perm_eq (g g' : List LicenseInfo) (hp : g.Perm g') :
    groupNames g = groupNames g' := by
  unfold groupNames
  refine List.eq_of_perm_of_sorted ?_ (List.sorted_insertionSort _ _)
    (List.sorted_insertionSort _ _)
  exact ((List.perm_insertionSort _ _).trans (hp.map _)).trans
    (List.perm_insertionSort _ _).symm

theorem sortedDedup_perm_eq (l l' : List String) (hp : l.Perm l') :
    sortedDedup l = sortedDedup l' := by
  unfold sortedDedup
  refine List.eq_of_perm_of_sorted ?_ (List.sorted_insertionSort _ _)
    (List.sorted_insertionSort _ _)
  exact ((List.perm_insertionSort _ _).trans hp.dedup).trans
    (List.perm_insertionSort _ _).symm

theorem format_license_header_perm (key : String) (g g' : List LicenseInfo)
    (hp : g.Perm g') : format_license_header key g = format_license_header key g' := by
  unfold format_license_header
  rw [sortedDedup_perm_eq (g.map (fun i => i.name)) (g'.map (fun i => i.name)) (hp.map _)]

theorem sort_key_snd (groups : List (String × List LicenseInfo)) (key : String) :
    (sort_key groups key).2 = groupNames ((groups.lookup key).getD []) := by
  unfold sort_key
  cases LICENES_IN_PREFERENCE_ORDER.findIdx? (fun license => strStartsWith key license) <;>
    rfl

theorem sort_key_groups_congr (deps deps' : List LicenseInfo) (hp : deps.Perm deps')
    (key : String) :
    sort_key (depsByLicenseTextHash deps') key =
      sort_key (depsByLicenseTextHash deps) key := by
  unfold sort_key
  rw [groups_lookup_getD, groups_lookup_getD,
    ← groupNames_perm_eq _ _ (hp.filter (fun i => licenseTextHashOf i == key))]

theorem sort_key_inj_on (deps : List LicenseInfo)
    (hnod : (deps.map (fun i => i.name)).Nodup) :
    ∀ k1 ∈ (depsByLicenseTextHash deps).map Prod.fst,
    ∀ k2 ∈ (depsByLicenseTextHash deps).map Prod.fst,
      sort_key (depsByLicenseTextHash deps) k1 = sort_key (depsByLicenseTextHash deps) k2 →
      k1 = k2 := by
  intro k1 h1 k2 h2 heq
  have e1 := congrArg Prod.snd heq
  rw [sort_key_snd, sort_key_snd, groups_lookup_getD, groups_lookup_getD] at e1
  rcases (groups_keys_mem_iff deps k1).mp h1 with ⟨i1, hi1, hk1⟩
  have hm1 : i1 ∈ deps.filter (fun i => licenseTextHashOf i == k1) :=
    List.mem_filter.mpr ⟨hi1, beq_iff_eq.mpr hk1⟩
  have hn1 : i1.name ∈ groupNames (deps.filter (fun i => licenseTextHashOf i == k1)) :=
    ((List.perm_insertionSort _ _).mem_iff).mpr (List.mem_map_of_mem _ hm1)
  rw [e1] at hn1
  have hn2 : i1.name ∈ (deps.filter (fun i => licenseTextHashOf i == k2)).map
      (fun i => i.name) := ((List.perm_insertionSort _ _).mem_iff).mp hn1
  rcases List.mem_map.mp hn2 with ⟨i2, hi2f, hname⟩
  rcases List.mem_filter.mp hi2f with ⟨hi2, hk2⟩
  have hii : i2 = i1 := List.inj_on_of_nodup_map hnod hi2 hi1 hname
  rw [← hk1, ← beq_iff_eq.mp hk2, hii]

theorem sections_congr (deps deps' : List LicenseInfo)
    (hnod : (deps.map (fun i => i.name)).Nodup) (hp : deps.Perm deps') :
    sectionsOf (depsByLicenseTextHash deps') = sectionsOf (depsByLicenseTextHash deps) := by
  have hsk : ∀ key, sort_key (depsByLicenseTextHash deps') key =
      sort_key (depsByLicenseTextHash deps) key := sort_key_groups_congr deps deps' hp
  have hkeysperm : ((depsByLicenseTextHash deps').map Prod.fst).Perm
      ((depsByLicenseTextHash deps).map Prod.fst) := by
    apply (List.perm_ext_iff_of_nodup (groups_keys_nodup deps') (groups_keys_nodup deps)).mpr
    intro a
    rw [groups_keys_mem_iff, groups_keys_mem_iff]
    constructor
    · intro ⟨i, hi, hk⟩; exact ⟨i, hp.mem_iff.mpr hi, hk⟩
    · intro ⟨i, hi, hk⟩; exact ⟨i, hp.mem_iff.mp hi, hk⟩
  unfold sectionsOf
  apply sorted_perm_keyed_eq (sort_key (depsByLicenseTextHash deps)) sortKeyLe
    sortKeyLe_antisymm
  · exact ((List.perm_insertionSort _ _).trans hkeysperm).trans
      (List.perm_insertionSort _ _).symm
  · have base : (((depsByLicenseTextHash deps).map Prod.fst).map
        (sort_key (depsByLicenseTextHash deps))).Nodup :=
      List.Nodup.map_on (sort_key_inj_on deps hnod) (groups_keys_nodup deps)
    have hlp : ((List.insertionSort (fun a b =>
        sortKeyLe (sort_key (depsByLicenseTextHash deps') a)
          (sort_key (depsByLicenseTextHash deps') b) = true)
        ((depsByLicenseTextHash deps').map Prod.fst)).map
          (sort_key (depsByLicenseTextHash deps))).Perm
        (((depsByLicenseTextHash deps).map Prod.fst).map
          (sort_key (depsByLicenseTextHash deps))) :=
      ((List.perm_insertionSort _ _).trans hkeysperm).map _
    exact hlp.nodup_iff.mpr base
  · refine List.Pairwise.imp ?_ (List.sorted_insertionSort _ _)
    intro a b hab
    rw [← hsk a, ← hsk b]
    exact hab
  · exact List.sorted_insertionSort _ _

theorem sectionLines_congr (deps deps' : List LicenseInfo)
    (hnod : (deps.map (fun i => i.name)).Nodup) (hp : deps.Perm deps') (key : String) :
    sectionLines (depsByLicenseTextHash deps') key =
      sectionLines (depsByLicenseTextHash deps) key := by
  unfold sectionLines
  rw [groups_lookup_getD, groups_lookup_getD]
  have hmem : List.insertionSort (fun a b => strLe a.name b.name = true)
      (deps'.filter (fun i => licenseTextHashOf i == key)) =
      List.insertionSort (fun a b => strLe a.name b.name = true)
        (deps.filter (fun i => licenseTextHashOf i == key)) := by
    apply sorted_perm_keyed_eq (fun i : LicenseInfo => i.name) strLe strLe_antisymm
    · exact ((List.perm_insertionSort _ _).trans
        ((hp.filter (fun i => licenseTextHashOf i == key)).symm)).trans
        (List.perm_insertionSort _ _).symm
    · have hnod' : (deps'.map (fun i => i.name)).Nodup := ((hp.map _).nodup_iff).mp hnod
      have hsubnd : ((deps'.filter (fun i => licenseTextHashOf i == key)).map
          (fun i => i.name)).Nodup :=
        hnod'.sublist ((List.filter_sublist _).map _)
      exact (((List.perm_insertionSort _ _).map _).nodup_iff).mpr hsubnd
    · exact List.sorted_insertionSort _ _
    · exact List.sorted_insertionSort _ _
  rw [hmem]

theorem tocLine_congr (deps deps' : List LicenseInfo) (hp : deps.Perm deps')
    (key : String) :
    tocLine (depsByLicenseTextHash deps') key = tocLine (depsByLicenseTextHash deps) key := by
  unfold tocLine
  rw [groups_lookup_getD, groups_lookup_getD,
    format_license_header_perm key _ _
      ((hp.filter (fun i => licenseTextHashOf i == key)).symm)]

theorem print_summary_perm (deps deps' : List LicenseInfo)
    (hnod : (deps.map (fun i => i.name)).Nodup) (hp : deps.Perm deps') :
    print_dependency_summary deps' = print_dependency_summary deps := by
  have hsec := sections_congr deps deps' hnod hp
  have hTOC : tocLine (depsByLicenseTextHash deps') = tocLine (depsByLicenseTextHash deps) :=
    funext (tocLine_congr deps deps' hp)
  have hSL : sectionLines (depsByLicenseTextHash deps') =
      sectionLines (depsByLicenseTextHash deps) :=
    funext (sectionLines_congr deps deps' hnod hp)
  show ((sectionsOf (depsByLicenseTextHash deps')).foldlM (fun acc key => do
      let lines ← sectionLines (depsByLicenseTextHash deps') key
      pure (acc ++ lines)) ([] : List String) >>= fun details =>
      pure (introLines ++ (sectionsOf (depsByLicenseTextHash deps')).map
        (tocLine (depsByLicenseTextHash deps')) ++ ["-------------"] ++ details)) =
    print_dependency_summary deps
  rw [hsec, hTOC, hSL]
  rfl

/-- C5: the renderer groups each record under the key that is the bare
license kind for `MPL-2.0`, `Apache-2.0` and `OpenSSL` and otherwise the
kind plus the digest of the whitespace-stripped license text; the group of
a key holds exactly the records whose key it is (so each record lands in
exactly one group, the keys being distinct); the section list is a
permutation of the group keys ordered by the sort key (position of the
first preference-list license the key starts with — one past the end for
unlisted kinds — then the sorted member package names); and, provided no
two records share a package name, rendering any permutation of the input
produces the identical document.  (Without that proviso the output can
depend on the input order: see the order counterexample.) -/
theorem c5_grouping_determinism (deps : List LicenseInfo) :
    (∀ key : String, ((depsByLicenseTextHash deps).lookup key).getD [] =
        deps.filter (fun i => licenseTextHashOf i == key)) ∧
    (∀ i : LicenseInfo, licenseTextHashOf i =
        if i.license = "MPL-2.0" ∨ i.license = "Apache-2.0" ∨ i.license = "OpenSSL"
        then i.license
        else i.license ++ ":" ++ sha256_hexdigest (stripAllWs i.license_text)) ∧
    ((depsByLicenseTextHash deps).map Prod.fst).Nodup ∧
    (∀ key : String, key ∈ (depsByLicenseTextHash deps).map Prod.fst ↔
        ∃ i ∈ deps, licenseTextHashOf i = key) ∧
    (sectionsOf (depsByLicenseTextHash deps)).Perm
        ((depsByLicenseTextHash deps).map Prod.fst) ∧
    (sectionsOf (depsByLicenseTextHash deps)).Pairwise
        (fun a b => sortKeyLe (sort_key (depsByLicenseTextHash deps) a)
          (sort_key (depsByLicenseTextHash deps) b) = true) ∧
    ((deps.map (fun i => i.name)).Nodup →
      ∀ deps' : List LicenseInfo, deps.Perm deps' →
        print_dependency_summary deps' = print_dependency_summary deps) := by
  refine ⟨groups_lookup_getD deps, ?_, groups_keys_nodup deps, groups_keys_mem_iff deps,
    List.perm_insertionSort _ _, List.sorted_insertionSort _ _,
    fun hnod deps' hp => print_summary_perm deps deps' hnod hp⟩
  intro i
  unfold licenseTextHashOf
  by_cases h : i.license ∈ (["MPL-2.0", "Apache-2.0", "OpenSSL"] : List String)
  · rw [if_pos h, if_pos (by simpa using h)]
  · rw [if_neg h, if_neg (by simpa using h)]

/-- Witness for C5 at two records with distinct package names: swapping the
input order leaves the rendered document unchanged. -/
theorem c5_grouping_determinism_witness :
    print_dependency_summary [wB, wA] = print_dependency_summary [wA, wB] :=
  (c5_grouping_determinism [wA, wB]).2.2.2.2.2.2 (by decide) [wB, wA] (by decide)

/-- C5 counterexample to the claim's unconditional byte-identical-output
sentence: two records sharing the package name `pkg` with different MIT
license texts form two groups with equal sort keys, the stable section sort
keeps them in input order, and the two input orders render different
documents. -/
theorem c5_order_counterexample :
    ([cxA, cxB] : List LicenseInfo).Perm [cxB, cxA] ∧
    print_dependency_summary [cxA, cxB] ≠ print_dependency_summary [cxB, cxA] :=
  ⟨by decide, by decide⟩

end DepSummary
